import Mathlib

/-!
Verification development for the Stark HTML accessibility-report parser
(`src/lib/starkParser.ts`): a shallow embedding of the text normalizer,
severity machinery, extraction strategies and the consolidation engine,
together with theorems settling the specified properties.

Strings are modelled as `String` (lists of characters); the JavaScript
regular-expression replacements used by the source are modelled by
explicit scanners that follow the semantics of the concrete patterns
appearing in the source (word boundaries over `[A-Za-z0-9_]`, greedy
character-class runs, global left-to-right non-overlapping matching on
the original string).
-/

/-- JavaScript `\w` character class: `[A-Za-z0-9_]`. -/
def isWordChar (c : Char) : Bool :=
  ('a' ≤ c && c ≤ 'z') || ('A' ≤ c && c ≤ 'Z') || ('0' ≤ c && c ≤ '9') || c == '_'

/-- JavaScript `\s` character class (whitespace, including NBSP, BOM and
Unicode space separators). -/
def jsSpace (c : Char) : Bool :=
  c == ' ' || c == '\t' || c == '\n' || c.toNat == 11 || c.toNat == 12 ||
  c == '\r' || c.toNat == 160 || c.toNat == 0x1680 ||
  (0x2000 ≤ c.toNat && c.toNat ≤ 0x200A) || c.toNat == 0x2028 ||
  c.toNat == 0x2029 || c.toNat == 0x202F || c.toNat == 0x205F ||
  c.toNat == 0x3000 || c.toNat == 0xFEFF

/-- JavaScript `\d` character class. -/
def isDigitChar (c : Char) : Bool := '0' ≤ c && c ≤ '9'

/-- ASCII lowercasing, as performed by `toLowerCase` on the ASCII range. -/
def lowerChar (c : Char) : Char := c.toLower

/-- `value.replace(/\s+/g, " ")`: collapse every whitespace run to a single
space.  The boolean argument records whether the previous character was
whitespace. -/
def collapseAux : Bool → List Char → List Char
  | _, [] => []
  | prevWs, c :: rest =>
    if jsSpace c then
      if prevWs then collapseAux true rest
      else ' ' :: collapseAux true rest
    else c :: collapseAux false rest

/-- `String.prototype.trim`. -/
def trimWs (l : List Char) : List Char :=
  ((l.dropWhile jsSpace).reverse.dropWhile jsSpace).reverse

/-- Length (count) of the leading digit run, with the remaining characters. -/
def digitRun : List Char → Nat × List Char
  | [] => (0, [])
  | c :: rest =>
    if isDigitChar c then
      let p := digitRun rest
      (p.1 + 1, p.2)
    else (0, c :: rest)

/-- Length of the leading whitespace run, with the remaining characters. -/
def wsRun : List Char → Nat × List Char
  | [] => (0, [])
  | c :: rest =>
    if jsSpace c then
      let p := wsRun rest
      (p.1 + 1, p.2)
    else (0, c :: rest)

/-- Case-insensitive literal prefix match: the needle is given lowercase;
returns the remaining characters on success. -/
def stripCI : List Char → List Char → Option (List Char)
  | [], rest => some rest
  | _, [] => none
  | n :: ns, c :: cs => if lowerChar c == n then stripCI ns cs else none

/-- Case-sensitive literal prefix match returning the remainder. -/
def stripL : List Char → List Char → Option (List Char)
  | [], rest => some rest
  | _, [] => none
  | n :: ns, c :: cs => if n == c then stripL ns cs else none

/-- A `\b` boundary relative to the character on the non-word side
(`none` = string edge). -/
def nonWordOpt : Option Char → Bool
  | none => true
  | some c => !isWordChar c

/-- The character following a match must be a non-word character or the end
of the string (for a trailing `\b` after a word character). -/
def headNonWord : List Char → Bool
  | [] => true
  | c :: _ => !isWordChar c

/-- Matcher for `/\b\d+passed\d+\b/i` at the head of the list; `prev` is the
character before the match position.  Returns the match length. -/
def tryP2 (prev : Option Char) (l : List Char) : Option Nat :=
  if !nonWordOpt prev then none else
  let d1 := digitRun l
  if d1.1 == 0 then none else
  match stripCI "passed".data d1.2 with
  | none => none
  | some r2 =>
    let d2 := digitRun r2
    if d2.1 == 0 then none else
    if headNonWord d2.2 then some (d1.1 + 6 + d2.1) else none

/-- Matcher for `/\b\d+\s*passed\s*\d+\b/i`. -/
def tryP3 (prev : Option Char) (l : List Char) : Option Nat :=
  if !nonWordOpt prev then none else
  let d1 := digitRun l
  if d1.1 == 0 then none else
  let w1 := wsRun d1.2
  match stripCI "passed".data w1.2 with
  | none => none
  | some r2 =>
    let w2 := wsRun r2
    let d2 := digitRun w2.2
    if d2.1 == 0 then none else
    if headNonWord d2.2 then some (d1.1 + w1.1 + 6 + w2.1 + d2.1) else none

/-- Matcher for `/\bpassed\s*\d+\b/i`. -/
def tryP4 (prev : Option Char) (l : List Char) : Option Nat :=
  if !nonWordOpt prev then none else
  match stripCI "passed".data l with
  | none => none
  | some r1 =>
    let w1 := wsRun r1
    let d1 := digitRun w1.2
    if d1.1 == 0 then none else
    if headNonWord d1.2 then some (6 + w1.1 + d1.1) else none

/-- Matcher for `/\b\d+\s*passed\b/i`. -/
def tryP5 (prev : Option Char) (l : List Char) : Option Nat :=
  if !nonWordOpt prev then none else
  let d1 := digitRun l
  if d1.1 == 0 then none else
  let w1 := wsRun d1.2
  match stripCI "passed".data w1.2 with
  | none => none
  | some r2 =>
    if headNonWord r2 then some (d1.1 + w1.1 + 6) else none

/-- Global replace-with-empty engine: scans left to right over the original
characters, removing each non-overlapping match; `prev` is the original
character preceding the current position (used by `\b`). -/
def removeAllAux (pat : Option Char → List Char → Option Nat) :
    Nat → Option Char → List Char → List Char
  | 0, _, l => l
  | _ + 1, _, [] => []
  | fuel + 1, prev, c :: rest =>
    match pat prev (c :: rest) with
    | some n =>
      if n == 0 then c :: removeAllAux pat fuel (some c) rest
      else
        match (c :: rest).drop (n - 1) with
        | p :: dropped => removeAllAux pat fuel (some p) dropped
        | [] => []
    | none => c :: removeAllAux pat fuel (some c) rest

/-- `value.replace(pattern, "")` with the `g` flag. -/
def removeAll (pat : Option Char → List Char → Option Nat) (l : List Char) :
    List Char :=
  removeAllAux pat l.length none l

/-- `normalizeText` from the source, over character lists: collapse/trim
whitespace, strip the four "passed"-counter artifact patterns in order,
then collapse/trim again. -/
def normalizeTextL (l : List Char) : List Char :=
  let t0 := trimWs (collapseAux false l)
  let t1 := removeAll tryP2 t0
  let t2 := removeAll tryP3 t1
  let t3 := removeAll tryP4 t2
  let t4 := removeAll tryP5 t3
  trimWs (collapseAux false t4)

/-- `normalizeText(value)` for a present string. -/
def normalizeText (s : String) : String := String.mk (normalizeTextL s.data)

/-- `normalizeText(value)` where `value` may be `null`/`undefined`. -/
def normalizeTextOpt (v : Option String) : String := normalizeText (v.getD "")

example : normalizeText "  a \t  b " = "a b" := by decide
example : normalizeText "3passed12 x" = "x" := by decide
example : normalizeText "ok passed 5 done" = "ok done" := by decide

/-- Whether the letter sequence "passed" occurs (case-insensitively) anywhere
in the character list. -/
def hasPassed : List Char → Bool
  | [] => false
  | c :: cs => (stripCI "passed".data (c :: cs)).isSome || hasPassed cs

/-- Well-spaced character lists: every whitespace character is a plain space,
no two whitespace characters are adjacent, and (when the flag is `true`) the
list does not begin with whitespace. -/
def noDubAux : Bool → List Char → Bool
  | _, [] => true
  | prev, c :: rest =>
    if jsSpace c then (c == ' ') && !prev && noDubAux true rest
    else noDubAux false rest

/-- Adjacent characters are never both whitespace. -/
def wsRel (a b : Char) : Prop := jsSpace a = false ∨ jsSpace b = false

lemma hasPassed_cons_tail {c : Char} {cs : List Char} (h : hasPassed cs = true) :
    hasPassed (c :: cs) = true := by
  simp [hasPassed, h]

lemma hasPassed_append_right (t l : List Char) (h : hasPassed l = true) :
    hasPassed (t ++ l) = true := by
  induction t with
  | nil => simpa using h
  | cons c cs ih => exact hasPassed_cons_tail ih

lemma stripCI_append {w l r : List Char} (z : List Char)
    (h : stripCI w l = some r) : stripCI w (l ++ z) = some (r ++ z) := by
  induction w generalizing l r with
  | nil =>
    simp [stripCI] at h
    simp [stripCI, h]
  | cons n ns ih =>
    cases l with
    | nil => simp [stripCI] at h
    | cons c cs =>
      simp only [stripCI, List.cons_append] at h ⊢
      by_cases hc : lowerChar c == n
      · simp only [hc, if_pos rfl] at h ⊢
        exact ih h
      · simp [hc] at h

lemma hasPassed_append_left {l : List Char} (z : List Char)
    (h : hasPassed l = true) : hasPassed (l ++ z) = true := by
  induction l with
  | nil => simp [hasPassed] at h
  | cons c cs ih =>
    simp only [hasPassed, Bool.or_eq_true, Option.isSome_iff_exists] at h
    rcases h with ⟨r, hr⟩ | htail
    · have := stripCI_append z hr
      simp only [List.cons_append, hasPassed, Bool.or_eq_true,
        Option.isSome_iff_exists]
      exact Or.inl ⟨r ++ z, by simpa using this⟩
    · simpa [hasPassed] using Or.inr (ih htail)

lemma hasPassed_of_prefix {l₁ l₂ : List Char} (h : l₁ <+: l₂)
    (hp : hasPassed l₁ = true) : hasPassed l₂ = true := by
  rcases h with ⟨t, rfl⟩
  exact hasPassed_append_left t hp

lemma hasPassed_of_suffix {l₁ l₂ : List Char} (h : l₁ <:+ l₂)
    (hp : hasPassed l₁ = true) : hasPassed l₂ = true := by
  rcases h with ⟨t, rfl⟩
  exact hasPassed_append_right t l₁ hp

lemma stripCI_passed_hasPassed {l r : List Char}
    (h : stripCI "passed".data l = some r) : hasPassed l = true := by
  cases l with
  | nil =>
    rw [show stripCI "passed".data ([] : List Char) = none from rfl] at h
    exact absurd h (by simp)
  | cons c cs => simp [hasPassed, h]

lemma digitRun_suffix (l : List Char) : (digitRun l).2 <:+ l := by
  induction l with
  | nil => simp [digitRun]
  | cons c cs ih =>
    by_cases hc : isDigitChar c
    · simpa [digitRun, hc] using ih.trans (List.suffix_cons c cs)
    · simp [digitRun, hc]

lemma wsRun_suffix (l : List Char) : (wsRun l).2 <:+ l := by
  induction l with
  | nil => simp [wsRun]
  | cons c cs ih =>
    by_cases hc : jsSpace c
    · simpa [wsRun, hc] using ih.trans (List.suffix_cons c cs)
    · simp [wsRun, hc]

lemma hasPassed_of_stripCI_suffix {l r₀ r : List Char} (hs : r₀ <:+ l)
    (h : stripCI "passed".data r₀ = some r) : hasPassed l = true :=
  hasPassed_of_suffix hs (stripCI_passed_hasPassed h)

lemma stripCI_none_of_noPassed {l : List Char} (r₀ : List Char)
    (hs : r₀ <:+ l) (h : hasPassed l = false) :
    stripCI "passed".data r₀ = none := by
  cases hr : stripCI "passed".data r₀ with
  | none => rfl
  | some r =>
    have := hasPassed_of_stripCI_suffix hs hr
    rw [this] at h
    exact absurd h (by simp)

lemma tryP2_none {prev : Option Char} {l : List Char}
    (h : hasPassed l = false) : tryP2 prev l = none := by
  have hstrip := stripCI_none_of_noPassed (digitRun l).2 (digitRun_suffix l) h
  simp [tryP2, hstrip]

lemma tryP3_none {prev : Option Char} {l : List Char}
    (h : hasPassed l = false) : tryP3 prev l = none := by
  have hstrip := stripCI_none_of_noPassed (wsRun (digitRun l).2).2
    ((wsRun_suffix (digitRun l).2).trans (digitRun_suffix l)) h
  simp [tryP3, hstrip]

lemma tryP4_none {prev : Option Char} {l : List Char}
    (h : hasPassed l = false) : tryP4 prev l = none := by
  have hstrip := stripCI_none_of_noPassed l List.suffix_rfl h
  simp [tryP4, hstrip]

lemma tryP5_none {prev : Option Char} {l : List Char}
    (h : hasPassed l = false) : tryP5 prev l = none := by
  have hstrip := stripCI_none_of_noPassed (wsRun (digitRun l).2).2
    ((wsRun_suffix (digitRun l).2).trans (digitRun_suffix l)) h
  simp [tryP5, hstrip]

lemma hasPassed_cons_false {c : Char} {cs : List Char}
    (h : hasPassed (c :: cs) = false) : hasPassed cs = false := by
  rw [hasPassed, Bool.or_eq_false_iff] at h
  exact h.2

lemma removeAllAux_id
    {pat : Option Char → List Char → Option Nat}
    (hpat : ∀ prev l, hasPassed l = false → pat prev l = none) :
    ∀ (fuel : Nat) (prev : Option Char) (l : List Char),
      hasPassed l = false → removeAllAux pat fuel prev l = l := by
  intro fuel
  induction fuel with
  | zero => intro prev l _; rfl
  | succ n ih =>
    intro prev l h
    cases l with
    | nil => rfl
    | cons c rest =>
      have hrest := hasPassed_cons_false h
      simp only [removeAllAux, hpat prev (c :: rest) h]
      rw [ih (some c) rest hrest]

lemma removeAll_id
    {pat : Option Char → List Char → Option Nat}
    (hpat : ∀ prev l, hasPassed l = false → pat prev l = none)
    {l : List Char} (h : hasPassed l = false) : removeAll pat l = l :=
  removeAllAux_id hpat l.length none l h

lemma collapse_noDub : ∀ (l : List Char) (b : Bool),
    noDubAux b (collapseAux b l) = true := by
  intro l
  induction l with
  | nil => intro b; rfl
  | cons c rest ih =>
    intro b
    by_cases hc : jsSpace c
    · cases b with
      | true =>
        have he : collapseAux true (c :: rest) = collapseAux true rest := by
          simp [collapseAux, hc]
        rw [he]
        exact ih true
      | false =>
        have he : collapseAux false (c :: rest) = ' ' :: collapseAux true rest := by
          simp [collapseAux, hc]
        rw [he]
        have h2 : noDubAux false (' ' :: collapseAux true rest) =
            noDubAux true (collapseAux true rest) := by
          simp [noDubAux, show jsSpace ' ' = true from rfl]
        rw [h2]
        exact ih true
    · rw [Bool.not_eq_true] at hc
      have he : collapseAux b (c :: rest) = c :: collapseAux false rest := by
        cases b <;> simp [collapseAux, hc]
      rw [he]
      have h2 : noDubAux b (c :: collapseAux false rest) =
          noDubAux false (collapseAux false rest) := by
        simp [noDubAux, hc]
      rw [h2]
      exact ih false

lemma noDub_true_head {c : Char} {r : List Char}
    (h : noDubAux true (c :: r) = true) : jsSpace c = false := by
  by_contra hc
  rw [Bool.not_eq_false] at hc
  simp [noDubAux, hc] at h

lemma noDub_flag_eq {l : List Char}
    (h : ∀ c r, l = c :: r → jsSpace c = false) :
    noDubAux true l = noDubAux false l := by
  cases l with
  | nil => rfl
  | cons c r => simp [noDubAux, h c r rfl]

lemma noDub_to_chain : ∀ (l : List Char) (b : Bool), noDubAux b l = true →
    (∀ c ∈ l, jsSpace c = true → c = ' ') ∧ l.Chain' wsRel := by
  intro l
  induction l with
  | nil => intro b _; exact ⟨by simp, List.chain'_nil⟩
  | cons c rest ih =>
    intro b h
    by_cases hc : jsSpace c
    · rw [show noDubAux b (c :: rest) =
        ((c == ' ') && !b && noDubAux true rest) from by simp [noDubAux, hc]] at h
      simp only [Bool.and_eq_true, beq_iff_eq] at h
      obtain ⟨⟨hsp, _⟩, hrest⟩ := h
      obtain ⟨hmem, hchain⟩ := ih true hrest
      refine ⟨?_, ?_⟩
      · intro x hx hxs
        rcases List.mem_cons.mp hx with rfl | hx
        · exact hsp
        · exact hmem x hx hxs
      · rw [List.chain'_cons']
        refine ⟨?_, hchain⟩
        intro y hy
        right
        cases rest with
        | nil => simp at hy
        | cons d r =>
          simp only [List.head?_cons, Option.mem_def, Option.some.injEq] at hy
          subst hy
          exact noDub_true_head hrest
    · rw [Bool.not_eq_true] at hc
      rw [show noDubAux b (c :: rest) = noDubAux false rest from by
        simp [noDubAux, hc]] at h
      obtain ⟨hmem, hchain⟩ := ih false h
      refine ⟨?_, ?_⟩
      · intro x hx hxs
        rcases List.mem_cons.mp hx with rfl | hx
        · rw [hxs] at hc; cases hc
        · exact hmem x hx hxs
      · rw [List.chain'_cons']
        exact ⟨fun y _ => Or.inl hc, hchain⟩

lemma chain_to_noDub : ∀ (l : List Char),
    (∀ c ∈ l, jsSpace c = true → c = ' ') → l.Chain' wsRel →
    noDubAux false l = true := by
  intro l
  induction l with
  | nil => intro _ _; rfl
  | cons c rest ih =>
    intro hmem hchain
    rw [List.chain'_cons'] at hchain
    obtain ⟨hhead, hchain⟩ := hchain
    have hrest : noDubAux false rest = true :=
      ih (fun x hx => hmem x (List.mem_cons_of_mem c hx)) hchain
    by_cases hc : jsSpace c
    · have hflag : noDubAux true rest = noDubAux false rest := by
        apply noDub_flag_eq
        intro d r hdr
        rcases hhead d (by rw [hdr]; rfl) with hd | hd
        · rw [hd] at hc
          cases hc
        · exact hd
      have hsp : c = ' ' := hmem c (by simp) hc
      rw [show noDubAux false (c :: rest) =
        ((c == ' ') && !false && noDubAux true rest) from by simp [noDubAux, hc]]
      rw [hflag, hrest, hsp]
      rfl
    · rw [Bool.not_eq_true] at hc
      rw [show noDubAux false (c :: rest) = noDubAux false rest from by
        simp [noDubAux, hc]]
      exact hrest

lemma toLower_eq_self {c : Char} (h : ¬(65 ≤ c.toNat ∧ c.toNat ≤ 90)) :
    lowerChar c = c := by
  show (let n := c.toNat; if n ≥ 65 ∧ n ≤ 90 then Char.ofNat (n + 32) else c) = c
  simp only []
  rw [if_neg]
  intro hh
  exact h ⟨hh.1, hh.2⟩

lemma jsSpace_toNat {c : Char} (h : jsSpace c = true) :
    c.toNat = 32 ∨ c.toNat = 9 ∨ c.toNat = 10 ∨ c.toNat = 11 ∨ c.toNat = 12 ∨
    c.toNat = 13 ∨ c.toNat = 160 ∨ c.toNat = 0x1680 ∨
    (0x2000 ≤ c.toNat ∧ c.toNat ≤ 0x200A) ∨ c.toNat = 0x2028 ∨
    c.toNat = 0x2029 ∨ c.toNat = 0x202F ∨ c.toNat = 0x205F ∨
    c.toNat = 0x3000 ∨ c.toNat = 0xFEFF := by
  simp only [jsSpace, Bool.or_eq_true, beq_iff_eq, Bool.and_eq_true,
    decide_eq_true_eq] at h
  rcases h with ((((((((((((((h | h) | h) | h) | h) | h) | h) | h) | h) | h) |
      h) | h) | h) | h) | h)
  · left; rw [h]; rfl
  · right; left; rw [h]; rfl
  · right; right; left; rw [h]; rfl
  · right; right; right; left; exact h
  · right; right; right; right; left; exact h
  · right; right; right; right; right; left; rw [h]; rfl
  · right; right; right; right; right; right; left; exact h
  · right; right; right; right; right; right; right; left; exact h
  · right; right; right; right; right; right; right; right; left; exact h
  · right; right; right; right; right; right; right; right; right; left
    exact h
  all_goals
    right; right; right; right; right; right; right; right; right; right
  · left; exact h
  · right; left; exact h
  · right; right; left; exact h
  · right; right; right; left; exact h
  · right; right; right; right; exact h

lemma lowerChar_eq_of_ws {c : Char} (h : jsSpace c = true) : lowerChar c = c := by
  apply toLower_eq_self
  rcases jsSpace_toNat h with h | h | h | h | h | h | h | h | h | h | h | h |
    h | h | h <;> omega

lemma ws_beq_passed_char_false {c : Char} (hws : jsSpace c = true) {n : Char}
    (hn : n ∈ "passed".data) : (lowerChar c == n) = false := by
  rw [lowerChar_eq_of_ws hws]
  have hc := jsSpace_toNat hws
  have hn' : n.toNat = 112 ∨ n.toNat = 97 ∨ n.toNat = 115 ∨ n.toNat = 101 ∨
      n.toNat = 100 := by
    have : "passed".data = ['p', 'a', 's', 's', 'e', 'd'] := rfl
    rw [this] at hn
    simp only [List.mem_cons, List.not_mem_nil, or_false] at hn
    rcases hn with rfl | rfl | rfl | rfl | rfl | rfl <;> decide
  rw [Bool.eq_false_iff]
  intro he
  have : c = n := by
    cases c ; cases n
    exact (beq_iff_eq.mp he)
  rw [this] at hc
  rcases hc with h | h | h | h | h | h | h | h | h | h | h | h | h | h | h <;>
    omega

lemma dropWhile_head_false {p : Char → Bool} : ∀ {l : List Char} {c : Char},
    (l.dropWhile p).head? = some c → p c = false := by
  intro l
  induction l with
  | nil => intro c h; simp at h
  | cons d rest ih =>
    intro c h
    by_cases hd : p d
    · rw [List.dropWhile_cons, if_pos hd] at h
      exact ih h
    · rw [Bool.not_eq_true] at hd
      rw [List.dropWhile_cons, if_neg (by simp [hd])] at h
      simp only [List.head?_cons, Option.some.injEq] at h
      rw [← h]
      exact hd

lemma dropWhile_self_of_head {p : Char → Bool} {l : List Char}
    (h : ∀ c, l.head? = some c → p c = false) : l.dropWhile p = l := by
  cases l with
  | nil => rfl
  | cons c rest =>
    rw [List.dropWhile_cons, if_neg]
    simp [h c rfl]

lemma dropWhile_idem {p : Char → Bool} (l : List Char) :
    (l.dropWhile p).dropWhile p = l.dropWhile p :=
  dropWhile_self_of_head (fun _ h => dropWhile_head_false h)

/-- Trailing-whitespace stripper (the second half of `trim`). -/
def dropTrail (l : List Char) : List Char :=
  (l.reverse.dropWhile jsSpace).reverse

lemma trimWs_eq (l : List Char) :
    trimWs l = dropTrail (l.dropWhile jsSpace) := rfl

lemma dropTrail_pref (l : List Char) : dropTrail l <+: l := by
  have h : (l.reverse.dropWhile jsSpace) <:+ l.reverse :=
    List.dropWhile_suffix jsSpace
  have := List.reverse_prefix.mpr h
  simpa [dropTrail] using this

lemma trim_inf (l : List Char) : trimWs l <:+: l := by
  rw [trimWs_eq]
  exact ((dropTrail_pref _).isInfix).trans (List.dropWhile_suffix _).isInfix

lemma dropTrail_idem (l : List Char) : dropTrail (dropTrail l) = dropTrail l := by
  unfold dropTrail
  rw [List.reverse_reverse, dropWhile_idem]

lemma prefix_head {l₁ l₂ : List Char} {c : Char} (h : l₁ <+: l₂)
    (hc : l₁.head? = some c) : l₂.head? = some c := by
  rcases h with ⟨t, rfl⟩
  cases l₁ with
  | nil => simp at hc
  | cons d r => simpa using hc

lemma trim_head_false {l : List Char} {c : Char}
    (h : (trimWs l).head? = some c) : jsSpace c = false := by
  rw [trimWs_eq] at h
  have := prefix_head (dropTrail_pref (l.dropWhile jsSpace)) h
  exact dropWhile_head_false this

lemma trim_trim (l : List Char) : trimWs (trimWs l) = trimWs l := by
  conv_lhs => rw [trimWs_eq]
  rw [dropWhile_self_of_head (fun c h => trim_head_false h)]
  rw [trimWs_eq, dropTrail_idem]

lemma collapse_of_noDub : ∀ (l : List Char) (b : Bool), noDubAux b l = true →
    collapseAux b l = l := by
  intro l
  induction l with
  | nil => intro b _; rfl
  | cons c rest ih =>
    intro b h
    by_cases hc : jsSpace c
    · cases b with
      | true =>
        rw [show noDubAux true (c :: rest) =
          ((c == ' ') && !true && noDubAux true rest) from by
            simp [noDubAux, hc]] at h
        simp at h
      | false =>
        rw [show noDubAux false (c :: rest) =
          ((c == ' ') && !false && noDubAux true rest) from by
            simp [noDubAux, hc]] at h
        simp only [Bool.and_eq_true, beq_iff_eq] at h
        obtain ⟨⟨hsp, _⟩, hrest⟩ := h
        rw [show collapseAux false (c :: rest) =
          ' ' :: collapseAux true rest from by simp [collapseAux, hc]]
        rw [ih true hrest, hsp]
    · rw [Bool.not_eq_true] at hc
      rw [show noDubAux b (c :: rest) = noDubAux false rest from by
        simp [noDubAux, hc]] at h
      rw [show collapseAux b (c :: rest) = c :: collapseAux false rest from by
        cases b <;> simp [collapseAux, hc]]
      rw [ih false h]

lemma noDub_trim {l : List Char} (h : noDubAux false l = true) :
    noDubAux false (trimWs l) = true := by
  obtain ⟨hmem, hchain⟩ := noDub_to_chain l false h
  exact chain_to_noDub (trimWs l)
    (fun c hc => hmem c ((trim_inf l).mem hc))
    ( hchain.infix (trim_inf l))

lemma cleanIdem (l : List Char) :
    trimWs (collapseAux false (trimWs (collapseAux false l))) =
      trimWs (collapseAux false l) := by
  rw [collapse_of_noDub _ false (noDub_trim (collapse_noDub l false))]
  exact trim_trim _

lemma stripCI_collapse : ∀ (rest : List Char) (w : List Char),
    (∀ n ∈ w, ∀ c, jsSpace c = true → (lowerChar c == n) = false) →
    ∀ r : List Char, stripCI w (collapseAux false rest) = some r →
    ∃ r', stripCI w rest = some r' := by
  intro rest
  induction rest with
  | nil =>
    intro w hw r h
    cases w with
    | nil => exact ⟨[], rfl⟩
    | cons n ns => simp [collapseAux, stripCI] at h
  | cons c r0 ih =>
    intro w hw r h
    cases w with
    | nil => exact ⟨c :: r0, rfl⟩
    | cons n ns =>
      by_cases hc : jsSpace c
      · rw [show collapseAux false (c :: r0) = ' ' :: collapseAux true r0 from by
          simp [collapseAux, hc]] at h
        rw [show stripCI (n :: ns) (' ' :: collapseAux true r0) = none from by
          simp [stripCI, hw n (by simp) ' ' (by decide)]] at h
        cases h
      · rw [Bool.not_eq_true] at hc
        rw [show collapseAux false (c :: r0) = c :: collapseAux false r0 from by
          simp [collapseAux, hc]] at h
        rw [stripCI] at h
        by_cases hcn : (lowerChar c == n) = true
        · rw [if_pos hcn] at h
          obtain ⟨r', hr'⟩ := ih ns (fun m hm => hw m (by simp [hm])) r h
          exact ⟨r', by rw [stripCI, if_pos hcn]; exact hr'⟩
        · rw [if_neg hcn] at h
          cases h

lemma passed_chars_not_ws :
    ∀ n ∈ "passed".data, ∀ c, jsSpace c = true → (lowerChar c == n) = false :=
  fun n hn c hc => ws_beq_passed_char_false hc hn

lemma hasPassed_collapse : ∀ (l : List Char) (b : Bool),
    hasPassed (collapseAux b l) = true → hasPassed l = true := by
  intro l
  induction l with
  | nil => intro b h; simpa [collapseAux] using h
  | cons c r ih =>
    intro b h
    by_cases hc : jsSpace c
    · cases b with
      | true =>
        rw [show collapseAux true (c :: r) = collapseAux true r from by
          simp [collapseAux, hc]] at h
        exact hasPassed_cons_tail (ih true h)
      | false =>
        rw [show collapseAux false (c :: r) = ' ' :: collapseAux true r from by
          simp [collapseAux, hc]] at h
        rw [hasPassed] at h
        rw [show stripCI "passed".data (' ' :: collapseAux true r) = none
          from rfl] at h
        simp only [Option.isSome_none, Bool.false_or] at h
        exact hasPassed_cons_tail (ih true h)
    · rw [Bool.not_eq_true] at hc
      rw [show collapseAux b (c :: r) = c :: collapseAux false r from by
        cases b <;> simp [collapseAux, hc]] at h
      rw [hasPassed, Bool.or_eq_true] at h
      rcases h with hhead | htail
    
      · rw [Option.isSome_iff_exists] at hhead
        obtain ⟨rr, hrr⟩ := hhead
        rw [show ("passed".data : List Char) = 'p' :: "assed".data from rfl,
          stripCI] at hrr
        by_cases hcp : (lowerChar c == 'p') = true
        · rw [if_pos hcp] at hrr
          obtain ⟨r', hr'⟩ := stripCI_collapse r "assed".data
            (fun m hm d hd => ws_beq_passed_char_false hd (by
              revert hm
              rw [show ("passed".data : List Char) = 'p' :: "assed".data from rfl]
              intro hm
              exact List.mem_cons_of_mem _ hm)) rr hrr
          rw [hasPassed, Bool.or_eq_true]
          left
          rw [show ("passed".data : List Char) = 'p' :: "assed".data from rfl,
            stripCI, if_pos hcp, hr']
          rfl
        · rw [if_neg hcp] at hrr
          cases hrr
      · exact hasPassed_cons_tail (ih false htail)

lemma hasPassed_trim {l : List Char} (h : hasPassed (trimWs l) = true) :
    hasPassed l = true := by
  obtain ⟨s, t, hst⟩ := trim_inf l
  rw [← hst]
  exact hasPassed_append_left t (hasPassed_append_right s _ h)

lemma hasPassed_trimCollapse_false {l : List Char} (h : hasPassed l = false) :
    hasPassed (trimWs (collapseAux false l)) = false := by
  cases hp : hasPassed (trimWs (collapseAux false l)) with
  | false => rfl
  | true =>
    rw [hasPassed_collapse l false (hasPassed_trim hp)] at h
    cases h

lemma normalizeTextL_noPassed {l : List Char} (h : hasPassed l = false) :
    normalizeTextL l = trimWs (collapseAux false l) := by
  have h0 := hasPassed_trimCollapse_false h
  simp only [normalizeTextL]
  rw [removeAll_id (fun p m hm => @tryP2_none p m hm) h0,
    removeAll_id (fun p m hm => @tryP3_none p m hm) h0,
    removeAll_id (fun p m hm => @tryP4_none p m hm) h0,
    removeAll_id (fun p m hm => @tryP5_none p m hm) h0]
  exact cleanIdem l

/-- The idempotence claim of the specification fails on the code: on the
input `"passed passed5 2"` the first pass removes only the `"passed5"`
artifact, leaving `"passed 2"`, from which a second pass strips
`"passed 2"` entirely.  So `normalizeText (normalizeText s) ≠
normalizeText s` at this input. -/
theorem claim_C4_counterexample :
    normalizeText "passed passed5 2" = "passed 2" ∧
    normalizeText "passed 2" = "" ∧
    normalizeText (normalizeText "passed passed5 2") ≠
      normalizeText "passed passed5 2" := by
  refine ⟨by decide, by decide, by decide⟩

/-- C4 (amended).  The text normalizer is idempotent on every string in
which the letter sequence "passed" does not occur (case-insensitively):
for such strings the artifact-stripping passes do nothing and
`normalizeText` reduces to whitespace collapsing and trimming, which is
idempotent.  (Full idempotence fails: see the counterexample.) -/
theorem claim_C4 (s : String) (h : hasPassed s.data = false) :
    normalizeText (normalizeText s) = normalizeText s := by
  unfold normalizeText
  have hdata : (String.mk (normalizeTextL s.data)).data = normalizeTextL s.data :=
    rfl
  rw [hdata]
  have h1 := normalizeTextL_noPassed h
  have ht0 : hasPassed (normalizeTextL s.data) = false := by
    rw [h1]
    exact hasPassed_trimCollapse_false h
  rw [normalizeTextL_noPassed ht0, h1, cleanIdem]

/-- Concrete instantiation of the amended C4 theorem. -/
theorem claim_C4_witness :
    hasPassed "An  image without a text alternative ".data = false ∧
    normalizeText (normalizeText "An  image without a text alternative ") =
      normalizeText "An  image without a text alternative " :=
  ⟨by decide, claim_C4 "An  image without a text alternative " (by decide)⟩

/-! ## Severity labels, schemes and inference -/

/-- `SeverityLabel`: the canonical 5-level scale. -/
inductive SeverityLabel where
  | critical
  | serious
  | moderate
  | minor
  | unknown
deriving DecidableEq, Repr

/-- `SEVERITY_ORDER` from the source. -/
def SEVERITY_ORDER : SeverityLabel → Nat
  | .critical => 4
  | .serious => 3
  | .moderate => 2
  | .minor => 1
  | .unknown => 0

/-- The string form of a `SeverityLabel` (the TypeScript union values). -/
def severityLabelText : SeverityLabel → String
  | .critical => "Critical"
  | .serious => "Serious"
  | .moderate => "Moderate"
  | .minor => "Minor"
  | .unknown => "Unknown"

/-- `SeverityScheme`. -/
inductive SeverityScheme where
  | axe
  | hml
  | unknown
deriving DecidableEq, Repr

/-- `formatSeverityLabel(severity, scheme)`;
`scheme : Option SeverityScheme` models `SeverityScheme | undefined`. -/
def formatSeverityLabel (severity : SeverityLabel)
    (scheme : Option SeverityScheme) : String :=
  match scheme with
  | some .hml =>
    match severity with
    | .critical => "Critical"
    | .serious => "High"
    | .moderate => "Medium"
    | .minor => "Low"
    | .unknown => "Unknown"
  | _ => severityLabelText severity

/-- `toLowerCase` on strings (ASCII range). -/
def lowerStr (s : String) : String := String.mk (s.data.map lowerChar)

/-- Case-sensitive prefix test. -/
def isPrefixL : List Char → List Char → Bool
  | [], _ => true
  | _, [] => false
  | n :: ns, c :: cs => n == c && isPrefixL ns cs

/-- Substring containment (a plain regex with no anchors or boundaries). -/
def containsSubL (needle : List Char) : List Char → Bool
  | [] => isPrefixL needle []
  | c :: cs => isPrefixL needle (c :: cs) || containsSubL needle cs

/-- `regex.test(hay)` for an alternation of plain literals. -/
def containsSub (needle hay : String) : Bool := containsSubL needle.data hay.data

/-- `normalizeSeverity(value)`: keyword containment on the lowercased raw
value, checked in the fixed priority order of the source. -/
def normalizeSeverity (value : String) : SeverityLabel :=
  let v := lowerStr value
  if containsSub "critical" v || containsSub "blocker" v ||
      containsSub "severe" v then .critical
  else if containsSub "serious" v || containsSub "high" v then .serious
  else if containsSub "moderate" v || containsSub "medium" v then .moderate
  else if containsSub "minor" v || containsSub "low" v then .minor
  else .unknown

/-- `pickHighestSeverity(values)`. -/
def pickHighestSeverity (values : List SeverityLabel) : SeverityLabel :=
  values.foldl
    (fun best v => if SEVERITY_ORDER best < SEVERITY_ORDER v then v else best)
    .unknown

/-- Occurrence of `needle` as a whole word (`\bneedle\b`), scanning with the
preceding character tracked for the boundary test; the needle consists of
word characters. -/
def containsWord (needle : List Char) : Option Char → List Char → Bool
  | _, [] => false
  | prev, c :: cs =>
    (nonWordOpt prev &&
      (match stripL needle (c :: cs) with
       | some r => headNonWord r
       | none => false)) ||
    containsWord needle (some c) cs

/-- The normalized, lowercased, nonempty raw labels
(`labels.map(l => normalizeText(l).toLowerCase()).filter(Boolean)`). -/
def normRawLabels (labels : List String) : List String :=
  (labels.map (fun l => lowerStr (normalizeText l))).filter (fun s => !(s == ""))

/-- `/\b(high|medium|low)\b/.test(l)` on one normalized label. -/
def hmlWordTest (l : String) : Bool :=
  containsWord "high".data none l.data ||
  containsWord "medium".data none l.data ||
  containsWord "low".data none l.data

/-- `/\b(serious|moderate|minor)\b/.test(l)` on one normalized label. -/
def axeWordTest (l : String) : Bool :=
  containsWord "serious".data none l.data ||
  containsWord "moderate".data none l.data ||
  containsWord "minor".data none l.data

/-- `/\bcritical\b/.test(l)` on one normalized label. -/
def criticalWordTest (l : String) : Bool :=
  containsWord "critical".data none l.data

/-- `/\b(high|medium|low)\b/` over the normalized labels. -/
def schemeHasHml (labels : List String) : Bool :=
  (normRawLabels labels).any hmlWordTest

/-- `/\b(serious|moderate|minor)\b/` over the normalized labels. -/
def schemeHasAxe (labels : List String) : Bool :=
  (normRawLabels labels).any axeWordTest

/-- `/\bcritical\b/` over the normalized labels. -/
def schemeHasCritical (labels : List String) : Bool :=
  (normRawLabels labels).any criticalWordTest

/-- Dropping empty strings from a mapped list is immaterial to an `any`
whose test fails on the empty string. -/
lemma any_filter_map (f : String → String) (p : String → Bool)
    (hp : p "" = false) (labels : List String) :
    ((labels.map f).filter (fun s => !(s == ""))).any p =
      labels.any (fun l => p (f l)) := by
  induction labels with
  | nil => rfl
  | cons a as ih =>
    rw [List.map_cons, List.filter_cons]
    by_cases ha : f a = ""
    · simp [ha, hp, ih]
    · simp [ha, ih]

/-- The `.filter(Boolean)` step of the label normalization is immaterial
to a word test that fails on the empty string: scanning the normalized
nonempty labels is scanning all normalized labels. -/
lemma any_normRaw (labels : List String) (p : String → Bool)
    (hp : p "" = false) :
    (normRawLabels labels).any p =
      labels.any (fun l => p (lowerStr (normalizeText l))) := by
  rw [normRawLabels]
  exact any_filter_map (fun l => lowerStr (normalizeText l)) p hp labels

/-- `inferSeveritySchemeFromRawLabels(labels)`. -/
def inferSeveritySchemeFromRawLabels (labels : List String) : SeverityScheme :=
  if schemeHasHml labels && !schemeHasAxe labels then .hml
  else if schemeHasAxe labels then .axe
  else if schemeHasCritical labels then .axe
  else .unknown

/-- C10.  Severity display formatting round-trips through normalization:
for every canonical severity label and every scheme (including the
undefined scheme), `normalizeSeverity (formatSeverityLabel s scheme) = s`;
in particular `Serious` displayed as "High" under the hml scheme
normalizes back to `Serious`. -/
theorem claim_C10 (s : SeverityLabel) (scheme : Option SeverityScheme) :
    normalizeSeverity (formatSeverityLabel s scheme) = s := by
  cases scheme with
  | none => cases s <;> decide
  | some sch => cases sch <;> cases s <;> decide

/-- C6.  Severity-scheme inference follows the specified ordered rules,
stated over the raw label list itself: some label with a whole-word HML
match (high/medium/low) and no label with a whole-word axe match
(serious/moderate/minor) gives "hml"; any label with an axe word gives
"axe"; a label with whole-word "critical" acts as an axe tiebreak when
neither vocabulary fired; with no matching labels the scheme is
"unknown"; and whenever both an axe-style word and an HML-style word
appear among the labels, the result is "axe".  Each label is tested
after text normalization and lowercasing, as in the source. -/
theorem claim_C6 (labels : List String) :
    ((∃ l ∈ labels, hmlWordTest (lowerStr (normalizeText l)) = true) →
     (∀ l ∈ labels, axeWordTest (lowerStr (normalizeText l)) = false) →
      inferSeveritySchemeFromRawLabels labels = .hml) ∧
    ((∃ l ∈ labels, axeWordTest (lowerStr (normalizeText l)) = true) →
      inferSeveritySchemeFromRawLabels labels = .axe) ∧
    ((∀ l ∈ labels, hmlWordTest (lowerStr (normalizeText l)) = false) →
     (∀ l ∈ labels, axeWordTest (lowerStr (normalizeText l)) = false) →
     (∃ l ∈ labels, criticalWordTest (lowerStr (normalizeText l)) = true) →
      inferSeveritySchemeFromRawLabels labels = .axe) ∧
    ((∀ l ∈ labels, hmlWordTest (lowerStr (normalizeText l)) = false) →
     (∀ l ∈ labels, axeWordTest (lowerStr (normalizeText l)) = false) →
     (∀ l ∈ labels, criticalWordTest (lowerStr (normalizeText l)) = false) →
      inferSeveritySchemeFromRawLabels labels = .unknown) ∧
    ((∃ l ∈ labels, axeWordTest (lowerStr (normalizeText l)) = true) →
     (∃ l ∈ labels, hmlWordTest (lowerStr (normalizeText l)) = true) →
      inferSeveritySchemeFromRawLabels labels = .axe) := by
  have eH := any_normRaw labels hmlWordTest (by decide)
  have eA := any_normRaw labels axeWordTest (by decide)
  have eC := any_normRaw labels criticalWordTest (by decide)
  have tH : schemeHasHml labels = true ↔
      ∃ l ∈ labels, hmlWordTest (lowerStr (normalizeText l)) = true := by
    rw [schemeHasHml, eH, List.any_eq_true]
  have fH : schemeHasHml labels = false ↔
      ∀ l ∈ labels, hmlWordTest (lowerStr (normalizeText l)) = false := by
    rw [schemeHasHml, eH]
    simp [List.any_eq_false]
  have tA : schemeHasAxe labels = true ↔
      ∃ l ∈ labels, axeWordTest (lowerStr (normalizeText l)) = true := by
    rw [schemeHasAxe, eA, List.any_eq_true]
  have fA : schemeHasAxe labels = false ↔
      ∀ l ∈ labels, axeWordTest (lowerStr (normalizeText l)) = false := by
    rw [schemeHasAxe, eA]
    simp [List.any_eq_false]
  have tC : schemeHasCritical labels = true ↔
      ∃ l ∈ labels, criticalWordTest (lowerStr (normalizeText l)) = true := by
    rw [schemeHasCritical, eC, List.any_eq_true]
  have fC : schemeHasCritical labels = false ↔
      ∀ l ∈ labels, criticalWordTest (lowerStr (normalizeText l)) = false := by
    rw [schemeHasCritical, eC]
    simp [List.any_eq_false]
  refine ⟨?_, ?_, ?_, ?_, ?_⟩
  · intro h1 h2
    simp [inferSeveritySchemeFromRawLabels, tH.mpr h1, fA.mpr h2]
  · intro h1
    simp [inferSeveritySchemeFromRawLabels, tA.mpr h1]
  · intro h1 h2 h3
    simp [inferSeveritySchemeFromRawLabels, fH.mpr h1, fA.mpr h2, tC.mpr h3]
  · intro h1 h2 h3
    simp [inferSeveritySchemeFromRawLabels, fH.mpr h1, fA.mpr h2, fC.mpr h3]
  · intro h1 h2
    simp [inferSeveritySchemeFromRawLabels, tA.mpr h1]

/-- Concrete instantiation of C6: labels using both vocabularies
("Serious" and "High") infer the axe scheme. -/
theorem claim_C6_witness :
    inferSeveritySchemeFromRawLabels ["Serious", "High"] = .axe :=
  (claim_C6 ["Serious", "High"]).2.2.2.2 (by decide) (by decide)

example : inferSeveritySchemeFromRawLabels ["High", "Medium"] = .hml := by decide
example : inferSeveritySchemeFromRawLabels ["Serious", "Minor"] = .axe := by
  decide
example : inferSeveritySchemeFromRawLabels ["Foo"] = .unknown := by decide
example : inferSeveritySchemeFromRawLabels ["Critical", "High"] = .hml := by
  decide
example : normalizeSeverity "High" = .serious := by decide

/-! ## Data model and consolidation engine -/

/-- `ParsedIssue`: one raw finding, as produced by an extractor. -/
structure ParsedIssue where
  title : String
  description : String
  severity : SeverityLabel
  severityOriginal : Option String := none
  occurrences : Nat
  wcag : Option String := none
  ruleId : Option String := none
  page : Option String := none
  exampleSnippet : Option String := none
  sourceFile : String
deriving DecidableEq, Repr

/-- `ConsolidatedIssue`: one merged issue group. -/
structure ConsolidatedIssue where
  title : String
  description : String
  severity : SeverityLabel
  wcag : Option String := none
  ruleId : Option String := none
  occurrences : Nat
  pages : List String
  sourceFiles : List String
  exampleSnippets : Option (List String) := none
deriving DecidableEq, Repr

/-- `clampSnippet(value)` with the default maximum of 420 characters. -/
def clampSnippet (value : String) : String :=
  let v := normalizeText value
  if v.data.length ≤ 420 then v else String.mk (v.data.take 419) ++ "…"

/-- `Array.from(new Set(xs))`: order-preserving first-occurrence dedup. -/
def dedupFirst (l : List String) : List String :=
  l.foldl (fun acc s => if s ∈ acc then acc else acc ++ [s]) []

/-- The normalized copy of an issue pushed into the consolidation map
(`{...issue, title, description, ruleId: ruleId || undefined,
wcag: wcag || undefined}`). -/
def normIssue (i : ParsedIssue) : ParsedIssue :=
  let t := normalizeText i.title
  let ruleId := normalizeText (i.ruleId.getD "")
  let wcag := normalizeText (i.wcag.getD "")
  { i with
    title := if t = "" then "Issue" else t,
    description := normalizeText i.description,
    ruleId := if ruleId = "" then none else some ruleId,
    wcag := if wcag = "" then none else some wcag }

/-- The consolidation grouping key:
`` `${ruleId || ""}|${wcag || ""}|${title}|${description}`.toLowerCase() ``. -/
def groupKey (i : ParsedIssue) : String :=
  let t := normalizeText i.title
  let title := if t = "" then "Issue" else t
  let description := normalizeText i.description
  let ruleId := normalizeText (i.ruleId.getD "")
  let wcag := normalizeText (i.wcag.getD "")
  lowerStr (ruleId ++ "|" ++ wcag ++ "|" ++ title ++ "|" ++ description)

/-- Insertion-ordered map update: append the issue to the existing group for
the key, or add a new group at the end. -/
def upsertGroup : List (String × List ParsedIssue) → String → ParsedIssue →
    List (String × List ParsedIssue)
  | [], k, i => [(k, [i])]
  | (k', g) :: rest, k, i =>
    if k' = k then (k', g ++ [i]) :: rest
    else (k', g) :: upsertGroup rest k i

/-- The grouping loop of `consolidateIssues`: a `Map` keyed by `groupKey`,
holding the normalized issue copies in insertion order. -/
def groupFold (raw : List ParsedIssue) : List (String × List ParsedIssue) :=
  raw.foldl (fun acc i => upsertGroup acc (groupKey i) (normIssue i)) []

/-- First-occurrence key insertion. -/
def insKey (acc : List String) (k : String) : List String :=
  if k ∈ acc then acc else acc ++ [k]

/-- The distinct group keys of a raw issue list, in first-occurrence order. -/
def keysOf (raw : List ParsedIssue) : List String :=
  raw.foldl (fun acc i => insKey acc (groupKey i)) []

/-- Building one `ConsolidatedIssue` from a group (the loop over
`map.values()` in `consolidateIssues`). -/
def consolidateGroup (g : List ParsedIssue) : ConsolidatedIssue :=
  let pages := dedupFirst
    ((g.map (fun i => normalizeText (i.page.getD ""))).filter
      (fun s => !(s == "")))
  let sourceFiles := dedupFirst (g.map (fun i => i.sourceFile))
  let occurrences := g.foldl (fun acc i => acc + i.occurrences) 0
  let snippets := (dedupFirst
    ((g.map (fun i => clampSnippet (i.exampleSnippet.getD ""))).filter
      (fun s => !(s == "")))).take 8
  { title := ((g.head?).map (fun i => i.title)).getD "Issue"
    description := ((g.head?).map (fun i => i.description)).getD ""
    severity := pickHighestSeverity (g.map (fun i => i.severity))
    wcag := (g.head?).bind (fun i => i.wcag)
    ruleId := (g.head?).bind (fun i => i.ruleId)
    occurrences := occurrences
    pages := pages
    sourceFiles := sourceFiles
    exampleSnippets := if snippets.isEmpty then none else some snippets }

/-- The consolidated list before the final sort. -/
def consolidatePre (raw : List ParsedIssue) : List ConsolidatedIssue :=
  (groupFold raw).map (fun p => consolidateGroup p.2)

/-- The final sort comparator as a Boolean order: `consLe a b` holds when
the JavaScript comparator returns a non-positive number on `(a, b)`
(severity descending, then occurrences descending). -/
def consLe (a b : ConsolidatedIssue) : Bool :=
  if SEVERITY_ORDER a.severity = SEVERITY_ORDER b.severity then
    decide (b.occurrences ≤ a.occurrences)
  else decide (SEVERITY_ORDER b.severity < SEVERITY_ORDER a.severity)

/-- The sort order as a decidable relation (a stable sort under this total
preorder produces exactly the list `Array.prototype.sort` returns for the
source comparator). -/
def consOrder (a b : ConsolidatedIssue) : Prop := consLe a b = true

instance : DecidableRel consOrder := fun a b =>
  inferInstanceAs (Decidable (consLe a b = true))

/-- `consolidateIssues(rawIssues)`: group, build, and stably sort. -/
def consolidateIssues (raw : List ParsedIssue) : List ConsolidatedIssue :=
  List.insertionSort consOrder (consolidatePre raw)

lemma consLe_iff {a b : ConsolidatedIssue} : consLe a b = true ↔
    (SEVERITY_ORDER b.severity < SEVERITY_ORDER a.severity ∨
      (SEVERITY_ORDER a.severity = SEVERITY_ORDER b.severity ∧
        b.occurrences ≤ a.occurrences)) := by
  unfold consLe
  by_cases h : SEVERITY_ORDER a.severity = SEVERITY_ORDER b.severity
  · simp [h]
  · simp [h]

lemma consLe_trans (a b c : ConsolidatedIssue) (hab : consLe a b = true)
    (hbc : consLe b c = true) : consLe a c = true := by
  rw [consLe_iff] at hab hbc ⊢
  rcases hab with h1 | ⟨h1, h1o⟩ <;> rcases hbc with h2 | ⟨h2, h2o⟩
  · exact Or.inl (lt_trans h2 h1)
  · exact Or.inl (by omega)
  · exact Or.inl (by omega)
  · exact Or.inr ⟨by omega, le_trans h2o h1o⟩

lemma consLe_total (a b : ConsolidatedIssue) :
    (consLe a b || consLe b a) = true := by
  rw [Bool.or_eq_true, consLe_iff, consLe_iff]
  omega

/-- C2.  The output of `consolidateIssues` is ordered by severity
descending, then occurrences descending: every adjacent pair either drops
strictly in severity rank or keeps the severity rank with non-increasing
occurrence counts. -/
theorem claim_C2 (raw : List ParsedIssue) :
    List.Chain'
      (fun a b =>
        SEVERITY_ORDER b.severity < SEVERITY_ORDER a.severity ∨
          (SEVERITY_ORDER a.severity = SEVERITY_ORDER b.severity ∧
            b.occurrences ≤ a.occurrences))
      (consolidateIssues raw) := by
  have htotal : IsTotal ConsolidatedIssue consOrder :=
    ⟨fun a b => by
      rcases Bool.or_eq_true_iff.mp (consLe_total a b) with h | h
      · exact Or.inl h
      · exact Or.inr h⟩
  have htrans : IsTrans ConsolidatedIssue consOrder :=
    ⟨fun a b c => consLe_trans a b c⟩
  have hp := List.sorted_insertionSort consOrder (consolidatePre raw)
  exact (hp.imp (fun h => consLe_iff.mp h)).chain'

lemma mem_insKey {acc : List String} {k k' : String} :
    k ∈ insKey acc k' ↔ k ∈ acc ∨ k = k' := by
  unfold insKey
  by_cases h : k' ∈ acc
  · rw [if_pos h]
    constructor
    · exact Or.inl
    · rintro (hk | rfl)
      · exact hk
      · exact h
  · rw [if_neg h]
    simp

lemma insKey_nodup {acc : List String} (h : acc.Nodup) (k : String) :
    (insKey acc k).Nodup := by
  unfold insKey
  by_cases hk : k ∈ acc
  · rw [if_pos hk]; exact h
  · rw [if_neg hk, List.nodup_append]
    exact ⟨h, List.nodup_singleton k,
      fun x hx hxk => hk ((List.mem_singleton.mp hxk) ▸ hx)⟩

lemma foldl_insKey_nodup : ∀ (raw : List ParsedIssue) (acc : List String),
    acc.Nodup → (raw.foldl (fun a i => insKey a (groupKey i)) acc).Nodup := by
  intro raw
  induction raw with
  | nil => intro acc h; exact h
  | cons x raw ih =>
    intro acc h
    exact ih (insKey acc (groupKey x)) (insKey_nodup h _)

lemma keysOf_nodup (raw : List ParsedIssue) : (keysOf raw).Nodup :=
  foldl_insKey_nodup raw [] (by simp)

lemma mem_foldl_insKey : ∀ (raw : List ParsedIssue) (acc : List String)
    (k : String), k ∈ raw.foldl (fun a i => insKey a (groupKey i)) acc ↔
      k ∈ acc ∨ ∃ i ∈ raw, groupKey i = k := by
  intro raw
  induction raw with
  | nil => intro acc k; simp
  | cons x raw ih =>
    intro acc k
    rw [List.foldl_cons, ih, mem_insKey]
    constructor
    · rintro ((hk | rfl) | ⟨i, hi, rfl⟩)
      · exact Or.inl hk
      · exact Or.inr ⟨x, by simp⟩
      · exact Or.inr ⟨i, by simp [hi]⟩
    · rintro (hk | ⟨i, hi, rfl⟩)
      · exact Or.inl (Or.inl hk)
      · rcases List.mem_cons.mp hi with rfl | hi
        · exact Or.inl (Or.inr rfl)
        · exact Or.inr ⟨i, hi, rfl⟩

lemma mem_keysOf {raw : List ParsedIssue} {k : String} :
    k ∈ keysOf raw ↔ ∃ i ∈ raw, groupKey i = k := by
  rw [keysOf, mem_foldl_insKey]
  simp

lemma keysOf_concat (raw : List ParsedIssue) (x : ParsedIssue) :
    keysOf (raw ++ [x]) = insKey (keysOf raw) (groupKey x) :=
  List.foldl_concat _ _ _ _

lemma groupFold_concat (raw : List ParsedIssue) (x : ParsedIssue) :
    groupFold (raw ++ [x]) =
      upsertGroup (groupFold raw) (groupKey x) (normIssue x) :=
  List.foldl_concat _ _ _ _

lemma upsert_map_not_mem {keys : List String} {k : String}
    {f : String → List ParsedIssue} {i : ParsedIssue} (hk : k ∉ keys) :
    upsertGroup (keys.map (fun j => (j, f j))) k i =
      keys.map (fun j => (j, f j)) ++ [(k, [i])] := by
  induction keys with
  | nil => rfl
  | cons k0 ks ih =>
    have hne : k0 ≠ k := fun he => hk (by simp [he])
    simp only [List.map_cons, upsertGroup, if_neg hne, List.cons_append]
    rw [ih (fun hmem => hk (by simp [hmem]))]

lemma upsert_map_mem {keys : List String} {k : String}
    {f : String → List ParsedIssue} {i : ParsedIssue} (hnd : keys.Nodup)
    (hk : k ∈ keys) :
    upsertGroup (keys.map (fun j => (j, f j))) k i =
      keys.map (fun j => (j, if j = k then f j ++ [i] else f j)) := by
  induction keys with
  | nil => simp at hk
  | cons k0 ks ih =>
    rw [List.nodup_cons] at hnd
    rcases List.mem_cons.mp hk with rfl | hks
    · simp only [List.map_cons, upsertGroup, if_true]
      congr 1
      apply List.map_congr_left
      intro j hj
      have hjk : j ≠ k := fun he => hnd.1 (he ▸ hj)
      rw [if_neg hjk]
    · have hne : k0 ≠ k := fun he => hnd.1 (he ▸ hks)
      simp only [List.map_cons, upsertGroup, if_neg hne]
      rw [ih hnd.2 hks]

lemma groupFold_eq (raw : List ParsedIssue) :
    groupFold raw = (keysOf raw).map
      (fun k => (k, (raw.filter (fun i => groupKey i == k)).map normIssue)) := by
  induction raw using List.reverseRecOn with
  | nil => rfl
  | append_singleton raw x ih =>
    rw [groupFold_concat, ih, keysOf_concat]
    by_cases hk : groupKey x ∈ keysOf raw
    · rw [insKey, if_pos hk, upsert_map_mem (keysOf_nodup raw) hk]
      apply List.map_congr_left
      intro k hkmem
      rw [List.filter_append]
      by_cases he : k = groupKey x
      · rw [if_pos he]
        have hx : List.filter (fun i => groupKey i == k) [x] = [x] := by
          simp [he]
        rw [hx, List.map_append]
        rfl
      · rw [if_neg he]
        have hx : List.filter (fun i => groupKey i == k) [x] = [] := by
          simp only [List.filter_cons, List.filter_nil]
          rw [if_neg]
          simp only [beq_iff_eq]
          exact fun hgk => he hgk.symm
        rw [hx, List.append_nil]
    · rw [insKey, if_neg hk, upsert_map_not_mem hk, List.map_append]
      congr 1
      · apply List.map_congr_left
        intro k hkmem
        rw [List.filter_append]
        have hx : List.filter (fun i => groupKey i == k) [x] = [] := by
          simp only [List.filter_cons, List.filter_nil]
          rw [if_neg]
          simp only [beq_iff_eq]
          exact fun hgk => hk (hgk ▸ hkmem)
        rw [hx, List.append_nil]
      · have hraw : List.filter (fun i => groupKey i == groupKey x) raw = [] := by
          rw [List.filter_eq_nil_iff]
          intro i hi
          simp only [beq_iff_eq]
          exact fun hgk => hk (mem_keysOf.mpr ⟨i, hi, hgk⟩)
        simp only [List.map_cons, List.map_nil, List.filter_append, hraw]
        simp

lemma consolidatePre_eq (raw : List ParsedIssue) :
    consolidatePre raw = (keysOf raw).map (fun k =>
      consolidateGroup ((raw.filter (fun i => groupKey i == k)).map normIssue)) := by
  rw [consolidatePre, groupFold_eq, List.map_map]
  rfl

lemma foldl_add_occ : ∀ (g : List ParsedIssue) (a : Nat),
    g.foldl (fun acc i => acc + i.occurrences) a =
      a + (g.map (fun i => i.occurrences)).sum := by
  intro g
  induction g with
  | nil => intro a; simp
  | cons i g ih =>
    intro a
    rw [List.foldl_cons, ih, List.map_cons, List.sum_cons]
    omega

lemma consolidateGroup_norm_fields (g : List ParsedIssue) :
    (consolidateGroup (g.map normIssue)).occurrences =
        (g.map (fun i => i.occurrences)).sum ∧
    (consolidateGroup (g.map normIssue)).severity =
        pickHighestSeverity (g.map (fun i => i.severity)) ∧
    (consolidateGroup (g.map normIssue)).pages =
        dedupFirst ((g.map (fun i => normalizeText (i.page.getD ""))).filter
          (fun s => !(s == ""))) ∧
    (consolidateGroup (g.map normIssue)).sourceFiles =
        dedupFirst (g.map (fun i => i.sourceFile)) := by
  have hocc : ∀ y : ParsedIssue, (normIssue y).occurrences = y.occurrences := by
    intro y
    simp [normIssue]
  have hsev : ∀ y : ParsedIssue, (normIssue y).severity = y.severity := by
    intro y
    simp [normIssue]
  have hpage : ∀ y : ParsedIssue, (normIssue y).page = y.page := by
    intro y
    simp [normIssue]
  have hsrc : ∀ y : ParsedIssue, (normIssue y).sourceFile = y.sourceFile := by
    intro y
    simp [normIssue]
  refine ⟨?_, ?_, ?_, ?_⟩
  · simp only [consolidateGroup]
    rw [List.foldl_map]
    simp only [hocc]
    rw [foldl_add_occ]
    simp
  · simp only [consolidateGroup, List.map_map]
    have he : List.map ((fun i => i.severity) ∘ normIssue) g =
        List.map (fun i : ParsedIssue => i.severity) g :=
      List.map_congr_left (fun i _ => by simp [Function.comp, hsev])
    rw [he]
  · simp only [consolidateGroup, List.map_map]
    have he : List.map ((fun i => normalizeText (i.page.getD "")) ∘ normIssue) g =
        List.map (fun i : ParsedIssue => normalizeText (i.page.getD "")) g :=
      List.map_congr_left (fun i _ => by simp [Function.comp, hpage])
    rw [he]
  · simp only [consolidateGroup, List.map_map]
    have he : List.map ((fun i => i.sourceFile) ∘ normIssue) g =
        List.map (fun i : ParsedIssue => i.sourceFile) g :=
      List.map_congr_left (fun i _ => by simp [Function.comp, hsrc])
    rw [he]

lemma pick_fold_spec : ∀ (vs : List SeverityLabel) (b : SeverityLabel),
    (∀ s ∈ vs, SEVERITY_ORDER s ≤ SEVERITY_ORDER (vs.foldl
      (fun best v => if SEVERITY_ORDER best < SEVERITY_ORDER v then v else best)
      b)) ∧
    SEVERITY_ORDER b ≤ SEVERITY_ORDER (vs.foldl
      (fun best v => if SEVERITY_ORDER best < SEVERITY_ORDER v then v else best)
      b) ∧
    ((vs.foldl (fun best v =>
      if SEVERITY_ORDER best < SEVERITY_ORDER v then v else best) b) ∈ vs ∨
      (vs.foldl (fun best v =>
        if SEVERITY_ORDER best < SEVERITY_ORDER v then v else best) b) = b) := by
  intro vs
  induction vs with
  | nil => intro b; exact ⟨by simp, le_refl _, Or.inr rfl⟩
  | cons v vs ih =>
    intro b
    rw [List.foldl_cons]
    by_cases hv : SEVERITY_ORDER b < SEVERITY_ORDER v
    · rw [if_pos hv]
      obtain ⟨hall, hb, hmem⟩ := ih v
      refine ⟨?_, le_trans (le_of_lt hv) hb, ?_⟩
      · intro s hs
        rcases List.mem_cons.mp hs with rfl | hs
        · exact hb
        · exact hall s hs
      · rcases hmem with hm | hm
        · exact Or.inl (List.mem_cons_of_mem v hm)
        · exact Or.inl (by rw [hm]; exact List.mem_cons_self v vs)
    · rw [if_neg hv]
      obtain ⟨hall, hb, hmem⟩ := ih b
      refine ⟨?_, hb, ?_⟩
      · intro s hs
        rcases List.mem_cons.mp hs with rfl | hs
        · omega
        · exact hall s hs
      · rcases hmem with hm | hm
        · exact Or.inl (List.mem_cons_of_mem v hm)
        · exact Or.inr hm

lemma pickHighestSeverity_spec (vs : List SeverityLabel) :
    (∀ s ∈ vs, SEVERITY_ORDER s ≤ SEVERITY_ORDER (pickHighestSeverity vs)) ∧
    (pickHighestSeverity vs ∈ vs ∨ pickHighestSeverity vs = .unknown) := by
  obtain ⟨hall, _, hmem⟩ := pick_fold_spec vs .unknown
  exact ⟨hall, hmem⟩

/-- C1.  Consolidation groups exactly by the normalized
(ruleId, wcag, title, description) key: the output (up to the final sort)
is one `ConsolidatedIssue` per distinct key, in first-occurrence order,
built from all raw issues with that key; occurrences are summed over the
group, severity is the maximum under the order Unknown < Minor < Moderate
< Serious < Critical, pages and source files are order-preserving
deduplicated unions; the key is fully determined by the four normalized
text fields (with absent ruleId/wcag read as the empty string) and is
unchanged by severity, occurrence count, page, snippet, raw severity
label, or source file. -/
theorem claim_C1 (raw : List ParsedIssue) :
    (consolidateIssues raw).Perm (consolidatePre raw) ∧
    consolidatePre raw = (keysOf raw).map (fun k =>
      consolidateGroup ((raw.filter (fun i => groupKey i == k)).map normIssue)) ∧
    (keysOf raw).Nodup ∧
    (∀ i ∈ raw, groupKey i ∈ keysOf raw) ∧
    (∀ g : List ParsedIssue,
      (consolidateGroup (g.map normIssue)).occurrences =
          (g.map (fun i => i.occurrences)).sum ∧
      (consolidateGroup (g.map normIssue)).severity =
          pickHighestSeverity (g.map (fun i => i.severity)) ∧
      (consolidateGroup (g.map normIssue)).pages =
          dedupFirst ((g.map (fun i => normalizeText (i.page.getD ""))).filter
            (fun s => !(s == ""))) ∧
      (consolidateGroup (g.map normIssue)).sourceFiles =
          dedupFirst (g.map (fun i => i.sourceFile))) ∧
    (∀ vs : List SeverityLabel,
      (∀ s ∈ vs, SEVERITY_ORDER s ≤ SEVERITY_ORDER (pickHighestSeverity vs)) ∧
      (pickHighestSeverity vs ∈ vs ∨ pickHighestSeverity vs = .unknown)) ∧
    (∀ i j : ParsedIssue,
      normalizeText (i.ruleId.getD "") = normalizeText (j.ruleId.getD "") →
      normalizeText (i.wcag.getD "") = normalizeText (j.wcag.getD "") →
      normalizeText i.title = normalizeText j.title →
      normalizeText i.description = normalizeText j.description →
      groupKey i = groupKey j) ∧
    (∀ (i : ParsedIssue) (sev : SeverityLabel) (so : Option String) (occ : Nat)
      (p e : Option String) (f : String),
      groupKey (ParsedIssue.mk i.title i.description sev so occ i.wcag
        i.ruleId p e f) = groupKey i) := by
  refine ⟨List.perm_insertionSort consOrder _, consolidatePre_eq raw,
    keysOf_nodup raw,
    ?_, consolidateGroup_norm_fields, pickHighestSeverity_spec, ?_, ?_⟩
  · intro i hi
    exact mem_keysOf.mpr ⟨i, hi, rfl⟩
  · intro i j hr hw ht hd
    unfold groupKey
    rw [hr, hw, ht, hd]
  · intro i sev so occ p e f
    rfl

/-- Two concrete raw findings that differ in whitespace, severity, page and
source file but share the normalized grouping tuple. -/
def wIssueA : ParsedIssue :=
  { title := "Missing alt"
    description := "Image lacks alt"
    severity := .minor
    occurrences := 2
    page := some "https://a.example"
    sourceFile := "a.html" }

/-- Companion to `wIssueA` for the consolidation witness. -/
def wIssueB : ParsedIssue :=
  { title := "Missing  alt"
    description := "Image lacks alt"
    severity := .critical
    occurrences := 3
    page := some "https://b.example"
    sourceFile := "b.html" }

/-- Concrete instantiation of C1: the two witnesses share one group key, and
their consolidation merges them into one issue with summed occurrences,
maximal severity, and both pages and source files. -/
theorem claim_C1_witness :
    groupKey wIssueA = groupKey wIssueB ∧
    (consolidateIssues [wIssueA, wIssueB]).Perm
      (consolidatePre [wIssueA, wIssueB]) ∧
    consolidatePre [wIssueA, wIssueB] =
      [{ title := "Missing alt"
         description := "Image lacks alt"
         severity := .critical
         occurrences := 5
         pages := ["https://a.example", "https://b.example"]
         sourceFiles := ["a.html", "b.html"] }] :=
  ⟨(claim_C1 [wIssueA, wIssueB]).2.2.2.2.2.2.1 wIssueA wIssueB
      (by decide) (by decide) (by decide) (by decide),
    (claim_C1 [wIssueA, wIssueB]).1,
    by decide⟩

/-! ## DOM model

The browser `Document` handed to the extractors is modelled as a tree of
element and text nodes.  An element's identity (JavaScript reference
equality) is its path of child indices from the root.  `querySelectorAll`
is modelled over the selector fragments the source actually uses. -/

/-- A DOM node: an element with a (lowercase) tag name, attributes and
children, or a text node. -/
inductive Node where
  | elem (tag : String) (attrs : List (String × String)) (children : List Node)
  | text (s : String)

/-- Tag name of a node (empty for text nodes). -/
def Node.tag : Node → String
  | .elem t _ _ => t
  | .text _ => ""

/-- Attribute list of a node. -/
def Node.attrList : Node → List (String × String)
  | .elem _ a _ => a
  | .text _ => []

/-- Child list of a node. -/
def Node.childList : Node → List Node
  | .elem _ _ cs => cs
  | .text _ => []

/-- First binding of an attribute name. -/
def attrLookup : List (String × String) → String → Option String
  | [], _ => none
  | (k, v) :: rest, name => if k = name then some v else attrLookup rest name

/-- `getAttribute`. -/
def getAttribute (n : Node) (name : String) : Option String :=
  attrLookup n.attrList name

mutual
/-- `textContent` of a node, as characters. -/
def textContentL : Node → List Char
  | .text s => s.data
  | .elem _ _ cs => textListL cs
/-- `textContent` of a node list. -/
def textListL : List Node → List Char
  | [] => []
  | c :: cs => textContentL c ++ textListL cs
end

/-- `node.textContent` as a string. -/
def textContent (n : Node) : String := String.mk (textContentL n)

/-- An element located in a document: its path of child indices (the
identity used for JavaScript reference comparison), its ancestor chain
(innermost first), and the node itself. -/
structure Loc where
  path : List Nat
  anc : List Node
  node : Node

mutual
/-- The element itself followed by all descendant elements, in document
order, with paths and ancestor chains. -/
def selfDesc (p : List Nat) (anc : List Node) : Node → List Loc
  | .text _ => []
  | .elem t a cs =>
    ⟨p, anc, .elem t a cs⟩ :: descListLoc p (Node.elem t a cs :: anc) 0 cs
/-- All descendant elements of the given children, in document order. -/
def descListLoc (p : List Nat) (anc : List Node) : Nat → List Node → List Loc
  | _, [] => []
  | idx, c :: cs =>
    selfDesc (p ++ [idx]) anc c ++ descListLoc p anc (idx + 1) cs
end

/-- All elements of the document rooted at `root`, in document order. -/
def docElems (root : Node) : List Loc := selfDesc [] [] root

/-- All strict descendant elements of a located element. -/
def descendantsOf (el : Loc) : List Loc :=
  descListLoc el.path (el.node :: el.anc) 0 el.node.childList

/-- The located element's element children, in order. -/
def childLocsAux (p : List Nat) (anc : List Node) :
    Nat → List Node → List Loc
  | _, [] => []
  | idx, c :: cs =>
    match c with
    | .elem t a cc =>
      ⟨p ++ [idx], anc, .elem t a cc⟩ :: childLocsAux p anc (idx + 1) cs
    | .text _ => childLocsAux p anc (idx + 1) cs

/-- Direct element children of a located element. -/
def childElems (el : Loc) : List Loc :=
  childLocsAux el.path (el.node :: el.anc) 0 el.node.childList

/-- `parentElement`. -/
def parentLoc (el : Loc) : Option Loc :=
  match el.anc with
  | [] => none
  | a :: rest => some ⟨el.path.dropLast, rest, a⟩

/-- `element.closest(tag)`: the nearest self-or-ancestor element with the
given tag name. -/
def closestTagAux (tag : String) : List Nat → List Node → Node → Option Loc
  | p, anc, n =>
    if n.tag == tag then some ⟨p, anc, n⟩
    else
      match anc with
      | [] => none
      | a :: rest => closestTagAux tag p.dropLast rest a

/-- `element.closest(tag)` on a located element. -/
def closestTag (el : Loc) (tag : String) : Option Loc :=
  closestTagAux tag el.path el.anc el.node

mutual
/-- Whether any node in the list (or its subtree) is an element with the
given tag. -/
def anyElemTag (inner : String) : List Node → Bool
  | [] => false
  | c :: cs => elemHasTag inner c || anyElemTag inner cs
/-- Whether the node is, or contains, an element with the given tag. -/
def elemHasTag (inner : String) : Node → Bool
  | .text _ => false
  | .elem t _ cs => (t == inner) || anyElemTag inner cs
end

/-- Split on whitespace (for `class` attribute tokens). -/
def splitWsAux : List Char → List Char → List String
  | [], acc => if acc.isEmpty then [] else [String.mk acc.reverse]
  | c :: cs, acc =>
    if jsSpace c then
      if acc.isEmpty then splitWsAux cs []
      else String.mk acc.reverse :: splitWsAux cs []
    else splitWsAux cs (c :: acc)

/-- Whether the element's `class` attribute contains the given token. -/
def hasClassToken (n : Node) (cls : String) : Bool :=
  match getAttribute n "class" with
  | none => false
  | some v => (splitWsAux v.data []).contains cls

/-- The simple-selector fragments used by the source. -/
inductive SSel where
  | tags (ts : List String)
  | tagAttrEq (t a v : String)
  | attrPresent (a : String)
  | classAndAttr (cls a : String)
  | tagHasTag (t inner : String)

/-- Whether an element matches a simple selector. -/
def matchesSimple (s : SSel) (n : Node) : Bool :=
  match s with
  | .tags ts =>
    match n with
    | .elem t _ _ => ts.contains t
    | .text _ => false
  | .tagAttrEq t a v => (n.tag == t) && (getAttribute n a == some v)
  | .attrPresent a => (attrLookup n.attrList a).isSome
  | .classAndAttr cls a =>
    hasClassToken n cls && (attrLookup n.attrList a).isSome
  | .tagHasTag t inner => (n.tag == t) && anyElemTag inner n.childList

/-- Whether the ancestor chain (innermost first) contains, in order going
outward, elements matching the given outer selector fragments
(innermost-required first). -/
def ancSatisfies : List Node → List SSel → Bool
  | _, [] => true
  | [], _ :: _ => false
  | a :: rest, s :: ss =>
    (matchesSimple s a && ancSatisfies rest ss) || ancSatisfies rest (s :: ss)

/-- A descendant-combinator chain, innermost selector first. -/
def matchesChain (chain : List SSel) (anc : List Node) (n : Node) : Bool :=
  match chain with
  | [] => false
  | inner :: outers => matchesSimple inner n && ancSatisfies anc outers

/-- A selector list (comma-separated in CSS). -/
def matchesSel (sel : List (List SSel)) (anc : List Node) (n : Node) : Bool :=
  sel.any (fun ch => matchesChain ch anc n)

/-- `document.querySelectorAll`. -/
def qsaRoot (root : Node) (sel : List (List SSel)) : List Loc :=
  (docElems root).filter (fun el => matchesSel sel el.anc el.node)

/-- `element.querySelectorAll` (matching over the whole document, filtered
to the element's descendants). -/
def qsaEl (el : Loc) (sel : List (List SSel)) : List Loc :=
  (descendantsOf el).filter (fun d => matchesSel sel d.anc d.node)

/-- `element.querySelector`. -/
def qselEl (el : Loc) (sel : List (List SSel)) : Option Loc :=
  (qsaEl el sel).head?

/-- `document.querySelector`. -/
def qselRoot (root : Node) (sel : List (List SSel)) : Option Loc :=
  (qsaRoot root sel).head?

/-- `table.tHead`: the first `thead` element child. -/
def tHeadLoc (t : Loc) : Option Loc :=
  (childElems t).find? (fun c => c.node.tag == "thead")

/-- `section.rows`: the `tr` element children of a table section. -/
def sectionRows (sec : Loc) : List Loc :=
  (childElems sec).filter (fun c => c.node.tag == "tr")

/-- `table.tBodies`: the `tbody` element children. -/
def tBodiesLoc (t : Loc) : List Loc :=
  (childElems t).filter (fun c => c.node.tag == "tbody")

/-- Reference equality of elements (same document position). -/
def sameLoc (a b : Loc) : Bool := a.path == b.path

/-! ## Extractor string helpers -/

/-- Digits to a number, as `Number.parseInt` on a digit run. -/
def digitsToNat (ds : List Char) : Nat :=
  ds.foldl (fun a c => a * 10 + (c.toNat - 48)) 0

/-- The first `\d+` run in the characters (`value.match(/\d+/)`). -/
def firstDigitRun : List Char → Option (List Char)
  | [] => none
  | c :: cs =>
    if isDigitChar c then some (c :: cs.takeWhile isDigitChar)
    else firstDigitRun cs

/-- `parseOccurrences(value)`: first integer if positive, else 1. -/
def parseOccurrences (value : String) : Nat :=
  let v := normalizeText value
  if v = "" then 1
  else
    match firstDigitRun v.data with
    | none => 1
    | some ds =>
      let n := digitsToNat ds
      if 0 < n then n else 1

/-- `parseFirstPositiveInt(value)`. -/
def parseFirstPositiveInt (value : String) : Option Nat :=
  match firstDigitRun (normalizeText value).data with
  | none => none
  | some ds => some (digitsToNat ds)

lemma parseOccurrences_pos (value : String) : 1 ≤ parseOccurrences value := by
  unfold parseOccurrences
  generalize normalizeText value = v
  show 1 ≤ (if v = "" then 1 else
    match firstDigitRun v.data with
    | none => 1
    | some ds =>
      let n := digitsToNat ds
      if 0 < n then n else 1)
  by_cases hv : v = ""
  · rw [if_pos hv]
  · rw [if_neg hv]
    cases hfd : firstDigitRun v.data with
    | none => exact Nat.le_refl 1
    | some ds =>
      show (1 : Nat) ≤ if 0 < digitsToNat ds then digitsToNat ds else 1
      by_cases hn : 0 < digitsToNat ds
      · rw [if_pos hn]
        omega
      · rw [if_neg hn]

example : parseOccurrences "(3 instances)" = 3 := by decide
example : parseOccurrences "" = 1 := by decide
example : parseOccurrences "no digits here" = 1 := by decide

/-- `a || b` on strings (empty string is falsy). -/
def strOr (a b : String) : String := if a = "" then b else a

/-- `s || undefined` on strings. -/
def strOpt (s : String) : Option String := if s = "" then none else some s

/-- `toHeaderKey(header)`: lowercase, collapse whitespace, keep only
`[a-z0-9 ]`, trim. -/
def toHeaderKey (header : String) : String :=
  let l1 := header.data.map lowerChar
  let l2 := collapseAux false l1
  let l3 := l2.filter
    (fun c => ('a' ≤ c && c ≤ 'z') || ('0' ≤ c && c ≤ '9') || c == ' ')
  String.mk (trimWs l3)

/-- `/(severity|impact|level)/` on a header key. -/
def keyHasSeverity (h : String) : Bool :=
  containsSub "severity" h || containsSub "impact" h || containsSub "level" h

/-- `/(occurrences|occurrence|instances|instance|count|violations|items)/`. -/
def keyHasOccurrences (h : String) : Bool :=
  containsSub "occurrences" h || containsSub "occurrence" h ||
  containsSub "instances" h || containsSub "instance" h ||
  containsSub "count" h || containsSub "violations" h || containsSub "items" h

/-- `/(title|issue|problem|summary|rule)/`. -/
def keyHasTitle (h : String) : Bool :=
  containsSub "title" h || containsSub "issue" h || containsSub "problem" h ||
  containsSub "summary" h || containsSub "rule" h

/-- `/(title|issue|problem|summary|rule|check)/` — the broader title-like
test used by the table-acceptance check (the column-index regex above has
no `check` alternative). -/
def keyHasTitleLike (h : String) : Bool :=
  containsSub "title" h || containsSub "issue" h || containsSub "problem" h ||
  containsSub "summary" h || containsSub "rule" h || containsSub "check" h

/-- `/(description|details|why it matters|explanation)/`. -/
def keyHasDescription (h : String) : Bool :=
  containsSub "description" h || containsSub "details" h ||
  containsSub "why it matters" h || containsSub "explanation" h

/-- `/(wcag|success criterion|sc)/`. -/
def keyHasWcag (h : String) : Bool :=
  containsSub "wcag" h || containsSub "success criterion" h ||
  containsSub "sc" h

/-- `/(rule id|ruleid|rule|check|code)/`. -/
def keyHasRule (h : String) : Bool :=
  containsSub "rule id" h || containsSub "ruleid" h || containsSub "rule" h ||
  containsSub "check" h || containsSub "code" h

/-- `/(page|url|screen|route)/`. -/
def keyHasPage (h : String) : Bool :=
  containsSub "page" h || containsSub "url" h || containsSub "screen" h ||
  containsSub "route" h

/-- `headerLooksLikeIssuesTable(headerKeys)`. -/
def headerLooksLikeIssuesTable (headerKeys : List String) : Bool :=
  let set := dedupFirst headerKeys
  (set.any keyHasSeverity) &&
    (set.any keyHasDescription || set.any keyHasTitleLike)

/-- `getCellText(cell)`. -/
def getCellText (cell : Loc) : String := normalizeText (textContent cell.node)

/-- Match of `(^|\b)(alt|alt text|alternate text)\b` at the head position. -/
def altWordAt (prev : Option Char) (l : List Char) : Bool :=
  nonWordOpt prev &&
    ((match stripL "alt".data l with
      | some r => headNonWord r
      | none => false) ||
     (match stripL "alt text".data l with
      | some r => headNonWord r
      | none => false) ||
     (match stripL "alternate text".data l with
      | some r => headNonWord r
      | none => false))

/-- Scan for `(^|\b)(alt|alt text|alternate text)\b`. -/
def altScanA : Option Char → List Char → Bool
  | _, [] => false
  | prev, c :: cs => altWordAt prev (c :: cs) || altScanA (some c) cs

/-- Scan for `missing\s+alt`. -/
def altScanB : List Char → Bool
  | [] => false
  | c :: cs =>
    (match stripL "missing".data (c :: cs) with
     | some r =>
       let w := wsRun r
       decide (0 < w.1) && (stripL "alt".data w.2).isSome
     | none => false) || altScanB cs

/-- Scan for `image\s+.*\balt\b`. -/
def altScanC : List Char → Bool
  | [] => false
  | c :: cs =>
    (match stripL "image".data (c :: cs) with
     | some r =>
       match r with
       | d :: ds => jsSpace d && containsWord "alt".data (some d) ds
       | [] => false
     | none => false) || altScanC cs

/-- Scan for `non-text\s+content`. -/
def altScanD : List Char → Bool
  | [] => false
  | c :: cs =>
    (match stripL "non-text".data (c :: cs) with
     | some r =>
       let w := wsRun r
       decide (0 < w.1) && (stripL "content".data w.2).isSome
     | none => false) || altScanD cs

/-- `isAltTextRelated(description)`. -/
def isAltTextRelated (description : String) : Bool :=
  let hay := (lowerStr (normalizeText description)).data
  altScanA none hay || altScanB hay || altScanC hay || altScanD hay

/-- Match of `<\s*TAG\b` at the head position. -/
def ltTagAt (tg : List Char) (l : List Char) : Bool :=
  match l with
  | '<' :: r =>
    let w := wsRun r
    (match stripL tg w.2 with
     | some r2 => headNonWord r2
     | none => false)
  | _ => false

/-- Scan for `<\s*TAG\b`. -/
def ltTagScan (tg : List Char) : List Char → Bool
  | [] => false
  | c :: cs => ltTagAt tg (c :: cs) || ltTagScan tg cs

/-- Match of `\balt\s*=` at the head position. -/
def altEqAt (prev : Option Char) (l : List Char) : Bool :=
  nonWordOpt prev &&
    (match stripL "alt".data l with
     | some r =>
       let w := wsRun r
       (match w.2 with
        | '=' :: _ => true
        | _ => false)
     | none => false)

/-- Scan for `\balt\s*=`. -/
def altEqScan : Option Char → List Char → Bool
  | _, [] => false
  | prev, c :: cs => altEqAt prev (c :: cs) || altEqScan (some c) cs

/-- `isUsefulAltExampleSnippet(snippet)`. -/
def isUsefulAltExampleSnippet (snippet : String) : Bool :=
  let s := (lowerStr (normalizeText snippet)).data
  ltTagScan "img".data s || altEqScan none s ||
  ltTagScan "picture".data s || ltTagScan "source".data s

example : isAltTextRelated "Images must have alternate text." = true := by
  decide
example : isUsefulAltExampleSnippet "<img src=\"a.png\">" = true := by decide
example : isUsefulAltExampleSnippet "plain text" = false := by decide

/-! ## Extractors -/

/-- Case-insensitive prefix test (needle lowercase). -/
def isPrefixCI : List Char → List Char → Bool
  | [], _ => true
  | _, [] => false
  | n :: ns, c :: cs => (lowerChar c == n) && isPrefixCI ns cs

/-- Case-insensitive substring containment. -/
def containsSubCIL (needle : List Char) : List Char → Bool
  | [] => isPrefixCI needle []
  | c :: cs => isPrefixCI needle (c :: cs) || containsSubCIL needle cs

/-- Decimal digits of a number (most significant first). -/
def natDigitsAux : Nat → Nat → List Char
  | 0, _ => []
  | f + 1, n =>
    if n < 10 then [Char.ofNat (48 + n)]
    else natDigitsAux f (n / 10) ++ [Char.ofNat (48 + n % 10)]

/-- Decimal string of a number (as JavaScript template interpolation). -/
def natToString (n : Nat) : String := String.mk (natDigitsAux (n + 1) n)

example : natToString 0 = "0" := by decide
example : natToString 342 = "342" := by decide

/-- The severity words of the heuristic pattern, in alternation order. -/
def sevWordList : List String :=
  ["critical", "serious", "high", "moderate", "medium", "minor", "low"]

/-- Try the severity-word alternation at the head, returning the matched
characters in their original case. -/
def sevCapture (l : List Char) : Option (List Char) :=
  sevWordList.findSome? (fun w =>
    match stripCI w.data l with
    | some _ => some (l.take w.data.length)
    | none => none)

/-- Match of `(?:severity|impact)\s*[:\-]?\s*(crit…|low)` at the head,
returning the captured severity word. -/
def sevWordAt (l : List Char) : Option (List Char) :=
  let afterKw :=
    match stripCI "severity".data l with
    | some r => some r
    | none => stripCI "impact".data l
  match afterKw with
  | none => none
  | some r =>
    let w1 := wsRun r
    let r2 :=
      match w1.2 with
      | ':' :: rr => rr.dropWhile jsSpace
      | '-' :: rr => rr.dropWhile jsSpace
      | other => other
    sevCapture r2

/-- Leftmost match of the heuristic severity pattern. -/
def sevHeuristicScan : List Char → Option (List Char)
  | [] => none
  | c :: cs =>
    match sevWordAt (c :: cs) with
    | some w => some w
    | none => sevHeuristicScan cs

/-- Heuristic-issue dedup by a key, keeping first occurrences. -/
def dedupByKeyAux (mk : ParsedIssue → String) :
    List String → List ParsedIssue → List ParsedIssue
  | _, [] => []
  | seen, i :: rest =>
    if mk i ∈ seen then dedupByKeyAux mk seen rest
    else i :: dedupByKeyAux mk (mk i :: seen) rest

/-- The heuristic dedup key `${severity}|${title}|${description}`. -/
def heurKey (i : ParsedIssue) : String :=
  severityLabelText i.severity ++ "|" ++ i.title ++ "|" ++ i.description

/-- `parseHeuristicIssues(doc, sourceFile)`. -/
def parseHeuristicIssues (root : Node) (sourceFile : String) :
    List ParsedIssue :=
  let candidates := qsaRoot root [[.tags ["section", "article", "li", "div"]]]
  let issues := candidates.filterMap (fun el =>
    let text := normalizeText (textContent el.node)
    if text = "" then none
    else if !(containsSubCIL "severity".data text.data ||
        containsSubCIL "impact".data text.data) then none
    else
      match sevHeuristicScan text.data with
      | none => none
      | some wchars =>
        let w := String.mk wchars
        let heading := (qselEl el [[.tags ["h1", "h2", "h3", "h4", "h5"]]]).map
          (fun h => textContent h.node)
        let title := strOr (normalizeText (heading.getD "")) "Issue"
        let description := String.mk (text.data.take 400)
        some { title := title
               description := description
               severity := normalizeSeverity w
               severityOriginal := some w
               occurrences := 1
               sourceFile := sourceFile })
  dedupByKeyAux heurKey [] issues

/-- Truncation point of `/\s*\d*\s*(failures|potentials)\b.*$/i`. -/
def failPotAt (l : List Char) : Bool :=
  let w1 := wsRun l
  let d := digitRun w1.2
  let w2 := wsRun d.2
  (match stripCI "failures".data w2.2 with
   | some r => headNonWord r
   | none => false) ||
  (match stripCI "potentials".data w2.2 with
   | some r => headNonWord r
   | none => false)

/-- `replace(/\s*\d*\s*(failures|potentials)\b.*$/i, "")`. -/
def stripFailuresSuffixL : List Char → List Char
  | [] => []
  | c :: cs => if failPotAt (c :: cs) then [] else c :: stripFailuresSuffixL cs

/-- `replace(/\s*\d+\s*$/g, "")`. -/
def stripTrailingNumL (l : List Char) : List Char :=
  let r := l.reverse
  let r1 := r.dropWhile jsSpace
  match r1 with
  | c :: _ =>
    if isDigitChar c then
      ((r1.dropWhile isDigitChar).dropWhile jsSpace).reverse
    else l
  | [] => l

/-- The repeated `(?:\.\d+)+\s` part of `/^\d+(?:\.\d+)+\s+/`. -/
def wcagGroupsF : Nat → List Char → Nat → Bool
  | 0, _, _ => false
  | fuel + 1, l, n =>
    match l with
    | '.' :: rest =>
      let d := digitRun rest
      if d.1 == 0 then false else wcagGroupsF fuel d.2 (n + 1)
    | c :: _ => decide (1 ≤ n) && jsSpace c
    | [] => false

/-- `/^\d+(?:\.\d+)+\s+/.test(t)`. -/
def wcagPrefixTest (l : List Char) : Bool :=
  let d := digitRun l
  if d.1 == 0 then false else wcagGroupsF (l.length + 1) d.2 0

example : wcagPrefixTest "1.1.1 Non-text Content".data = true := by decide
example : wcagPrefixTest "1 Non-text".data = false := by decide

/-- `sanitizeWcagLabel(raw)` from `extractBestWcagLabelFromAncestors`. -/
def sanitizeWcagLabel (raw : String) : Option String :=
  let t := normalizeText raw
  if t = "" then none
  else
    let t1 := String.mk (stripFailuresSuffixL t.data)
    let t2 := String.mk (stripTrailingNumL t1.data)
    let t3 := normalizeText t2
    if wcagPrefixTest t3.data then some t3 else none

/-- Dots in a label (`(a.match(/\./g) ?? []).length`). -/
def dotCount (s : String) : Nat := (s.data.filter (fun c => c == '.')).length

/-- Sort order of candidate WCAG labels: more dot segments first (the
stable-sort comparator `segB - segA`). -/
def wcagLabelOrder (a b : String) : Prop := dotCount b ≤ dotCount a

instance : DecidableRel wcagLabelOrder := fun a b =>
  inferInstanceAs (Decidable (dotCount b ≤ dotCount a))

/-- The bounded (depth-15) ancestor walk collecting candidate labels. -/
def wcagAncWalk : Nat → Option Loc → List String
  | 0, _ => []
  | _ + 1, none => []
  | depth + 1, some cur =>
    let here :=
      if cur.node.tag == "li" then
        match qselEl cur [[.tags ["button"]]] with
        | some btn =>
          (((qsaEl btn [[.tags ["div"]]]).map
            (fun d => normalizeText (textContent d.node))).filter
            (fun s => !(s == ""))).filterMap sanitizeWcagLabel
        | none => []
      else []
    here ++ wcagAncWalk depth (parentLoc cur)

/-- `extractBestWcagLabelFromAncestors(el)`. -/
def extractBestWcagLabelFromAncestors (el : Loc) : Option String :=
  let candidates := wcagAncWalk 15 (some el)
  match candidates with
  | [] => none
  | _ => (List.insertionSort wcagLabelOrder candidates).head?

/-- `\)` followed by `\s*$`. -/
def closeParen (r : List Char) : Bool :=
  match r with
  | ')' :: r4 => (r4.dropWhile jsSpace).isEmpty
  | _ => false

/-- `instances?` tail: optional `s` (greedy), closing paren, trailing
whitespace, end. -/
def instTail (r2 : List Char) : Bool :=
  (match r2 with
   | c :: rr => (lowerChar c == 's') && closeParen rr
   | [] => false) || closeParen r2

/-- `\s*\((\d+)\s+instances?\)\s*$` with the captured count. -/
def groupMatch (l : List Char) : Option Nat :=
  let w := wsRun l
  match w.2 with
  | '(' :: r1 =>
    let d := digitRun r1
    if d.1 == 0 then none
    else
      let ds := r1.take d.1
      let w2 := wsRun (r1.drop d.1)
      if w2.1 == 0 then none
      else
        match stripCI "instance".data w2.2 with
        | some r2 => if instTail r2 then some (digitsToNat ds) else none
        | none => none
  | _ => none

/-- Whether the remainder after the lazy message group matches
`(?:\s*\((\d+)\s+instances?\))?\s*$`; returns the captured count. -/
def ariaTailOk (l : List Char) : Option (Option Nat) :=
  match groupMatch l with
  | some n => some (some n)
  | none => if (l.dropWhile jsSpace).isEmpty then some none else none

/-- The lazy `(.*?)` search: the shortest message prefix whose remainder
matches the tail pattern (dot does not cross newlines). -/
def lazyScan (acc : List Char) : List Char → Option (List Char × Option Nat)
  | [] =>
    match ariaTailOk [] with
    | some cnt => some (acc.reverse, cnt)
    | none => none
  | c :: cs =>
    match ariaTailOk (c :: cs) with
    | some cnt => some (acc.reverse, cnt)
    | none =>
      if (c == '\n') || (c == '\r') then none
      else lazyScan (c :: acc) cs

/-- The part of the card regex after the `Violation` literal:
`\.?\s*(.*?)(?:\s*\((\d+)\s+instances?\))?\s*$`. -/
def afterViolation (r : List Char) : Option (String × Option Nat) :=
  let r1 :=
    match r with
    | '.' :: rr => rr
    | _ => r
  let r2 := r1.dropWhile jsSpace
  match lazyScan [] r2 with
  | some (msg, cnt) => some (String.mk msg, cnt)
  | none => none

/-- `\bviolation` head match (`violation` followed by a word boundary). -/
def violationWordAt (l : List Char) : Bool :=
  match stripCI "violation".data l with
  | some r => headNonWord r
  | none => false

/-- `/^(potential\s+)?violation\b/i.test(aria)`. -/
def violationPre (l : List Char) : Bool :=
  (match stripCI "potential".data l with
   | some r =>
     let w := wsRun r
     decide (0 < w.1) && violationWordAt w.2
   | none => false) || violationWordAt l

/-- `/^potential\s+violation\b/i.test(aria)`. -/
def isPotentialAria (l : List Char) : Bool :=
  match stripCI "potential".data l with
  | some r =>
    let w := wsRun r
    decide (0 < w.1) && violationWordAt w.2
  | none => false

/-- The full card regex
`/^(Potential\s+)?Violation\.?\s*(.*?)(?:\s*\((\d+)\s+instances?\))?\s*$/i`:
returns (message, count). -/
def ariaMatch (aria : String) : Option (String × Option Nat) :=
  let l := aria.data
  let plain :=
    match stripCI "violation".data l with
    | some r => afterViolation r
    | none => none
  match stripCI "potential".data l with
  | some r =>
    let w := wsRun r
    if 0 < w.1 then
      match stripCI "violation".data w.2 with
      | some r2 => afterViolation r2
      | none => plain
    else plain
  | none => plain

/-- `description.replace(/\s*[–-]\s*\(\d+\s+instances?\)\s*$/i, "")`:
whether the pattern matches here through to the end. -/
def dashInstAt (l : List Char) : Bool :=
  let w := wsRun l
  match w.2 with
  | c :: r =>
    ((c == '–') || (c == '-')) &&
      (match r.dropWhile jsSpace with
       | '(' :: r1 =>
         let d := digitRun r1
         if d.1 == 0 then false
         else
           let w2 := wsRun (r1.drop d.1)
           if w2.1 == 0 then false
           else
             match stripCI "instance".data w2.2 with
             | some r2 => instTail r2
             | none => false
       | _ => false)
  | [] => false

/-- Strip the trailing "– (N instances)" suffix (leftmost match to end). -/
def stripDashInstL : List Char → List Char
  | [] => []
  | c :: cs => if dashInstAt (c :: cs) then [] else c :: stripDashInstL cs

/-- One category card's issues (the body of the `for` loop of
`parseCategoriesCardIssues`). -/
def cardIssues (el : Loc) (sourceFile : String) (pageUrl : Option String) :
    List ParsedIssue :=
  let aria := normalizeText ((getAttribute el.node "aria-label").getD "")
  if aria = "" then []
  else if !violationPre aria.data then []
  else
    let isPotential := isPotentialAria aria.data
    let m := ariaMatch aria
    let fromAriaMessage := normalizeText ((m.map (fun p => p.1)).getD "")
    let fromAriaOccurrences : Option Nat := m.bind (fun p => p.2)
    let descVisible := normalizeText
      (((qselEl el [[.classAndAttr "col-" "title"]]).map
        (fun d => textContent d.node)).getD "")
    let desc1 := if descVisible = "" then fromAriaMessage else descVisible
    let description := String.mk (stripDashInstL desc1.data)
    let occurrences :=
      match fromAriaOccurrences with
      | some n => if 0 < n then n else parseOccurrences description
      | none => parseOccurrences description
    if description = "" then []
    else
      let title :=
        if 90 < description.data.length then
          String.mk (description.data.take 87) ++ "…"
        else description
      let wcag := extractBestWcagLabelFromAncestors el
      let wantsInstances := isAltTextRelated description
      if wantsInstances then
        let instanceSnippets :=
          ((qsaEl el [[.tagAttrEq "ul" "aria-label" "Instances", .tags ["li"],
              .tags ["code"]].reverse]).map
            (fun c => clampSnippet (textContent c.node))).filter
            (fun s => !(s == "") && isUsefulAltExampleSnippet s)
        let perInstance := instanceSnippets.map (fun snip =>
          { title := title
            description := description
            severity := if isPotential then SeverityLabel.moderate
              else SeverityLabel.critical
            occurrences := 1
            wcag := wcag
            page := pageUrl
            exampleSnippet := some snip
            sourceFile := sourceFile })
        let known := instanceSnippets.length
        let remainder := occurrences - known
        let remIssues :=
          if 0 < remainder then
            [{ title := title
               description := description ++ " (Additional " ++
                 natToString remainder ++
                 " instance(s) not included in the HTML export)"
               severity := if isPotential then SeverityLabel.moderate
                 else SeverityLabel.critical
               occurrences := remainder
               wcag := wcag
               page := pageUrl
               sourceFile := sourceFile }]
          else []
        perInstance ++ remIssues
      else
        [{ title := title
           description := description
           severity := if isPotential then SeverityLabel.moderate
             else SeverityLabel.critical
           occurrences := occurrences
           wcag := wcag
           page := pageUrl
           sourceFile := sourceFile }]

/-- `parseCategoriesCardIssues(doc, sourceFile, pageUrl)` (no local dedup;
consolidation happens later). -/
def parseCategoriesCardIssues (root : Node) (sourceFile : String)
    (pageUrl : Option String) : List ParsedIssue :=
  (qsaRoot root [[.attrPresent "aria-label"]]).flatMap
    (fun el => cardIssues el sourceFile pageUrl)

/-- One data row of an accepted issue table (the body of the row loop of
`parseTableIssues`). -/
def rowIssue (severityIdx occurrencesIdx titleIdx descriptionIdx wcagIdx
    ruleIdx pageIdx : Option Nat) (sourceFile : String) (r : Loc) :
    Option ParsedIssue :=
  let cells := (qsaEl r [[.tags ["td", "th"]]]).map getCellText
  let get := fun (idx : Option Nat) =>
    match idx with
    | none => ""
    | some ix => normalizeText (cells.getD ix "")
  let severityRaw := get severityIdx
  let occurrences := parseOccurrences (get occurrencesIdx)
  let title := strOr (strOr (get titleIdx) (get descriptionIdx)) "Issue"
  let description := strOr (get descriptionIdx) (get titleIdx)
  if severityRaw = "" && description = "" then none
  else some
    { title := title
      description := description
      severity := normalizeSeverity severityRaw
      severityOriginal := strOpt severityRaw
      occurrences := occurrences
      wcag := strOpt (get wcagIdx)
      ruleId := strOpt (get ruleIdx)
      page := strOpt (get pageIdx)
      sourceFile := sourceFile }

/-- `parseTableIssues(table, sourceFile)`. -/
def parseTableIssues (t : Loc) (sourceFile : String) : List ParsedIssue :=
  let rows := qsaEl t [[.tags ["tr"]]]
  if rows.isEmpty then []
  else
    let headerRow :=
      (((tHeadLoc t).bind (fun th => (sectionRows th).head?)).orElse (fun _ =>
        rows.find? (fun r => 0 < (qsaEl r [[.tags ["th"]]]).length))).getD
        (rows.headD ⟨[], [], .text ""⟩)
    let headerCells := (qsaEl headerRow [[.tags ["th", "td"]]]).map getCellText
    let headerKeys := headerCells.map toHeaderKey
    if !headerLooksLikeIssuesTable headerKeys then []
    else
      let severityIdx := headerKeys.findIdx? keyHasSeverity
      let occurrencesIdx := headerKeys.findIdx? keyHasOccurrences
      let titleIdx := headerKeys.findIdx? keyHasTitle
      let descriptionIdx := headerKeys.findIdx? keyHasDescription
      let wcagIdx := headerKeys.findIdx? keyHasWcag
      let ruleIdx := headerKeys.findIdx? keyHasRule
      let pageIdx := headerKeys.findIdx? keyHasPage
      let bodyRows :=
        if 0 < (tBodiesLoc t).length then (tBodiesLoc t).flatMap sectionRows
        else rows
      let dataRows := bodyRows.filter (fun r =>
        !sameLoc r headerRow && 0 < (qsaEl r [[.tags ["td", "th"]]]).length)
      dataRows.filterMap (rowIssue severityIdx occurrencesIdx titleIdx
        descriptionIdx wcagIdx ruleIdx pageIdx sourceFile)

/-- `/^violations$/i.test(t)`. -/
def isViolationsLabel (t : String) : Bool :=
  (t.data.map lowerChar) == "violations".data

/-- `/^potential\s+violations?$/i.test(t)`. -/
def isPotentialViolationsLabel (t : String) : Bool :=
  match stripL "potential".data (t.data.map lowerChar) with
  | some r =>
    let w := wsRun r
    decide (0 < w.1) &&
      (match stripL "violation".data w.2 with
       | some r2 => (r2 == []) || (r2 == ['s'])
       | none => false)
  | none => false

/-- The bounded ancestor walk of `findMetric` in `extractBreakdownTotals`:
take the closest `div` container, look for numeric text inside it, prefer
the smallest number, else climb to the container's parent. -/
def metricWalk : Nat → Option Loc → Option Nat
  | 0, _ => none
  | _ + 1, none => none
  | fuel + 1, some cur =>
    let container := (closestTag cur "div").getD cur
    let inner := qsaEl container [[.tags ["div", "span"]]]
    let candidates := (inner.map
      (fun c => normalizeText (textContent c.node))).filterMap
      parseFirstPositiveInt
    match candidates with
    | [] => metricWalk fuel (parentLoc container)
    | _ => (List.insertionSort (fun a b : Nat => a ≤ b) candidates).head?

/-- `extractBreakdownTotals(doc)`: the report-level
(violations, potentialViolations) metrics. -/
def extractBreakdownTotals (root : Node) : Option Nat × Option Nat :=
  let nodes := qsaRoot root [[.tags ["p", "span", "div"]]]
  let findMetric := fun (pred : String → Bool) =>
    match nodes.find? (fun n => pred (normalizeText (textContent n.node))) with
    | none => none
    | some labelEl => metricWalk 6 (some labelEl)
  (findMetric isViolationsLabel, findMetric isPotentialViolationsLabel)

/-- `WcagCriterionTotals`. -/
structure WcagCriterionTotals where
  wcag : String
  failures : Nat
  potentials : Nat
deriving DecidableEq, Repr

/-- `Map.set` on the criterion map: replace in place or append. -/
def setWcagEntry : List WcagCriterionTotals → WcagCriterionTotals →
    List WcagCriterionTotals
  | [], e => [e]
  | x :: xs, e => if x.wcag = e.wcag then e :: xs else x :: setWcagEntry xs e

/-- `/^failures$/i.test(label)`. -/
def isFailuresLabel (t : String) : Bool :=
  (t.data.map lowerChar) == "failures".data

/-- `/^potentials$/i.test(label)`. -/
def isPotentialsLabel (t : String) : Bool :=
  (t.data.map lowerChar) == "potentials".data

/-- `extractWcagBreakdownTotals(doc)`. -/
def extractWcagBreakdownTotals (root : Node) : List WcagCriterionTotals :=
  let svgs := qsaRoot root [[SSel.tagAttrEq "svg" "aria-label" "Failures"],
    [SSel.tagAttrEq "svg" "aria-label" "Potentials"]]
  svgs.foldl (fun acc svg =>
    let label := normalizeText ((getAttribute svg.node "aria-label").getD "")
    if label = "" then acc
    else
      match extractBestWcagLabelFromAncestors svg with
      | none => acc
      | some wcag =>
        if !wcagPrefixTest wcag.data then acc
        else
          let wrapper := closestTag svg "div"
          let numberText := strOr
            (normalizeText (((wrapper.bind
              (fun w => qselEl w [[.tags ["div"]]])).map
              (fun d => textContent d.node)).getD ""))
            (normalizeText ((wrapper.map (fun w => textContent w.node)).getD ""))
          match parseFirstPositiveInt numberText with
          | none => acc
          | some n =>
            let existing := ((acc.find? (fun x => x.wcag == wcag)).getD
              ⟨wcag, 0, 0⟩)
            let updated :=
              if isFailuresLabel label then
                { existing with failures := n }
              else if isPotentialsLabel label then
                { existing with potentials := n }
              else existing
            setWcagEntry acc updated) []

/-- `/^https?:\/\//i.test(t)`. -/
def httpPre (l : List Char) : Bool :=
  (stripCI "https://".data l).isSome || (stripCI "http://".data l).isSome

/-- A character allowed in the URL tail (`[^\s)\]"']`). -/
def urlCharOk (c : Char) : Bool :=
  !(jsSpace c || c == ')' || c == ']' || c == '"' || c == '\'')

/-- Match of `https?:\/\/[^\s)\]"']+` at the head, returning the matched
characters. -/
def urlAt (l : List Char) : Option (List Char) :=
  match stripCI "https://".data l with
  | some r =>
    let run := r.takeWhile urlCharOk
    if run.isEmpty then none else some (l.take 8 ++ run)
  | none =>
    match stripCI "http://".data l with
    | some r =>
      let run := r.takeWhile urlCharOk
      if run.isEmpty then none else some (l.take 7 ++ run)
    | none => none

/-- Leftmost URL in the text. -/
def urlScan : List Char → Option (List Char)
  | [] => none
  | c :: cs =>
    match urlAt (c :: cs) with
    | some u => some u
    | none => urlScan cs

/-- `extractPrimaryPageUrl(doc)`. -/
def extractPrimaryPageUrl (root : Node) : Option String :=
  let pTags := qsaRoot root [[.tags ["p"]]]
  match pTags.findSome? (fun p =>
    let t := normalizeText (textContent p.node)
    if httpPre t.data && decide (t.data.length < 300) then some t else none)
  with
  | some t => some t
  | none =>
    let bodyText := normalizeText
      (((qselRoot root [[.tags ["body"]]]).map
        (fun b => textContent b.node)).getD "")
    (urlScan bodyText.data).map String.mk

/-- One per-table entry of `debug.tableHeaders`. -/
structure TableHeaderInfo where
  index : Nat
  headers : List String
  rows : Nat
deriving DecidableEq, Repr

/-- `ParseDebugInfo`. -/
structure ParseDebugInfo where
  tablesFound : Nat
  tableHeaders : List TableHeaderInfo
  matchedTables : Nat
  issuesExtracted : Nat
  reportTotals : Option (Option Nat × Option Nat) := none
  wcagBreakdownTotals : Option (Nat × Nat × Nat) := none
  severityScheme : Option SeverityScheme := none
  severityLabelsFound : Option (List String) := none
  warnings : List String
deriving DecidableEq, Repr

/-- The result record of one parse call. -/
structure ParseResult where
  issues : List ParsedIssue
  debug : ParseDebugInfo
deriving DecidableEq, Repr

/-- Pair each element with its index. -/
def withIdx : Nat → List α → List (Nat × α)
  | _, [] => []
  | n, x :: xs => (n, x) :: withIdx (n + 1) xs

/-- The `debug.tableHeaders` entry for one table. -/
def tableHeaderInfo (p : Nat × Loc) : TableHeaderInfo :=
  let t := p.2
  let headerRow :=
    (((tHeadLoc t).bind (fun th => (sectionRows th).head?)).orElse (fun _ =>
      qselEl t [[.tagHasTag "tr" "th"]])).orElse (fun _ =>
      qselEl t [[.tags ["tr"]]])
  let headers :=
    match headerRow with
    | some hr => (qsaEl hr [[.tags ["th", "td"]]]).map
        (fun c => normalizeText (textContent c.node))
    | none => []
  ⟨p.1, headers, (qsaEl t [[.tags ["tr"]]]).length⟩

/-- The per-criterion coverage accumulator of the gap-filling pass. -/
structure CoveredCounts where
  wcag : String
  failures : Nat
  potentials : Nat
deriving DecidableEq, Repr

/-- `Map.set` on the coverage map. -/
def setCovered : List CoveredCounts → CoveredCounts → List CoveredCounts
  | [], e => [e]
  | x :: xs, e => if x.wcag = e.wcag then e :: xs else x :: setCovered xs e

/-- How many failures/potentials are already covered by concrete cards,
per criterion (the `covered` map of `parseStarkHtmlReport`). -/
def coveredMap (categoryIssues : List ParsedIssue) : List CoveredCounts :=
  categoryIssues.foldl (fun acc i =>
    let wcag := normalizeText (i.wcag.getD "")
    if wcag = "" then acc
    else
      let existing := (acc.find? (fun x => x.wcag == wcag)).getD ⟨wcag, 0, 0⟩
      let updated :=
        if i.severity = SeverityLabel.critical then
          { existing with failures := existing.failures + i.occurrences }
        else if i.severity = SeverityLabel.moderate then
          { existing with potentials := existing.potentials + i.occurrences }
        else existing
      setCovered acc updated) []

/-- The description of every gap-fill synthetic issue. -/
def synthDescription : String :=
  "Count taken from the WCAG breakdown in the Stark report. Detailed issue cards were not present in the HTML export (often because the section was collapsed)."

/-- The gap-fill synthetic issues for one criterion. -/
def synthFor (covered : List CoveredCounts) (pageUrl : Option String)
    (sourceFile : String) (c : WcagCriterionTotals) : List ParsedIssue :=
  let existing := (covered.find? (fun x => x.wcag == c.wcag)).getD ⟨c.wcag, 0, 0⟩
  let missingFailures := c.failures - existing.failures
  let missingPotentials := c.potentials - existing.potentials
  (if 0 < missingFailures then
    [{ title := "WCAG " ++ c.wcag ++ " — Violations (details not in export)"
       description := synthDescription
       severity := SeverityLabel.critical
       occurrences := missingFailures
       wcag := some c.wcag
       page := pageUrl
       sourceFile := sourceFile }]
  else []) ++
  (if 0 < missingPotentials then
    [{ title := "WCAG " ++ c.wcag ++
         " — Potential violations (details not in export)"
       description := synthDescription
       severity := SeverityLabel.moderate
       occurrences := missingPotentials
       wcag := some c.wcag
       page := pageUrl
       sourceFile := sourceFile }]
  else [])

/-- The strategy chain of `parseStarkHtmlReport`: table issues if any table
matched, otherwise category cards plus WCAG gap-fill (when either exists),
otherwise the heuristic fallback; paired with the warnings it generates. -/
def chooseIssues (root : Node) (sourceFile : String) (pageUrl : Option String)
    (wcagBreakdown : List WcagCriterionTotals)
    (tableIssues : List ParsedIssue) : List ParsedIssue × List String :=
  if 0 < tableIssues.length then (tableIssues, ([] : List String))
  else
    let categoryIssues := parseCategoriesCardIssues root sourceFile pageUrl
    if 0 < categoryIssues.length || 0 < wcagBreakdown.length then
      let warns1 :=
        (if 0 < categoryIssues.length then
          ["No issue tables matched; parsed Categories-style issue cards."]
        else []) ++
        (if 0 < wcagBreakdown.length then
          ["WCAG breakdown counts detected; using them to ensure totals align even if sections are collapsed."]
        else [])
      let covered := coveredMap categoryIssues
      let synth := wcagBreakdown.flatMap (synthFor covered pageUrl sourceFile)
      let warns2 :=
        if 0 < synth.length then
          ["Added " ++ natToString synth.length ++
            " synthetic issue(s) to account for collapsed sections so totals match the report."]
        else []
      (categoryIssues ++ synth, warns1 ++ warns2)
    else
      (parseHeuristicIssues root sourceFile,
        ["No issue tables matched; using fallback heuristic."])

/-- `parseStarkHtmlReport` after the document has been obtained: the
extraction strategies in priority order, with the debug trace. -/
def parseStarkDoc (root : Node) (sourceFile : String) : ParseResult :=
  let reportTotals := extractBreakdownTotals root
  let debugReportTotals :=
    if reportTotals.1.isSome || reportTotals.2.isSome then some reportTotals
    else none
  let wcagBreakdown := extractWcagBreakdownTotals root
  let debugWcagTotals :=
    if 0 < wcagBreakdown.length then
      some (wcagBreakdown.length,
        (wcagBreakdown.map (fun c => c.failures)).sum,
        (wcagBreakdown.map (fun c => c.potentials)).sum)
    else none
  let pageUrl := extractPrimaryPageUrl root
  let urlWarnings :=
    match pageUrl with
    | some u => ["Detected page URL: " ++ u]
    | none => []
  let tables := qsaRoot root [[.tags ["table"]]]
  let tableHeaders := (withIdx 0 tables).map tableHeaderInfo
  let tableIssues := tables.flatMap (fun t => parseTableIssues t sourceFile)
  let matchedTables :=
    (tables.filter (fun t => 0 < (parseTableIssues t sourceFile).length)).length
  let branch := chooseIssues root sourceFile pageUrl wcagBreakdown tableIssues
  let issues := branch.1
  let severityLabels := dedupFirst
    ((issues.map (fun i => normalizeText (i.severityOriginal.getD ""))).filter
      (fun s => !(s == "")))
  ⟨issues,
    { tablesFound := tables.length
      tableHeaders := tableHeaders
      matchedTables := matchedTables
      issuesExtracted := issues.length
      reportTotals := debugReportTotals
      wcagBreakdownTotals := debugWcagTotals
      severityScheme :=
        if 0 < severityLabels.length then
          some (inferSeveritySchemeFromRawLabels severityLabels)
        else none
      severityLabelsFound :=
        if 0 < severityLabels.length then some severityLabels else none
      warnings := urlWarnings ++ branch.2 }⟩

/-- `parseStarkHtmlReport(html, sourceFile)`, with the external `DOMParser`
call modelled as a host function that either yields a document or fails
(the `try`/`catch` around `parseFromString`). -/
def parseStarkHtmlReport (domParse : String → Option Node) (html : String)
    (sourceFile : String) : ParseResult :=
  match domParse html with
  | none =>
    ⟨[], { tablesFound := 0
           tableHeaders := []
           matchedTables := 0
           issuesExtracted := 0
           warnings := ["DOMParser failed to parse HTML."] }⟩
  | some root => parseStarkDoc root sourceFile

/-! ## Claims about the parser -/

/-- C3.  `parseStarkHtmlReport` never throws: for every host document
parser, input string and source identifier it returns an
`{ issues, debug }` record, and when the HTML cannot be parsed into a
document at all it returns an empty issue list together with the warning
"DOMParser failed to parse HTML." in the debug record. -/
theorem claim_C3 (domParse : String → Option Node) (html sourceFile : String) :
    (∃ issues debug,
      parseStarkHtmlReport domParse html sourceFile = ⟨issues, debug⟩) ∧
    (domParse html = none →
      (parseStarkHtmlReport domParse html sourceFile).issues = [] ∧
      "DOMParser failed to parse HTML." ∈
        (parseStarkHtmlReport domParse html sourceFile).debug.warnings) := by
  constructor
  · exact ⟨_, _, rfl⟩
  · intro h
    simp [parseStarkHtmlReport, h]

/-- Concrete instantiation of C3 at a failing document parser. -/
theorem claim_C3_witness :
    (parseStarkHtmlReport (fun _ => none) "<not html>" "a.html").issues = [] ∧
    "DOMParser failed to parse HTML." ∈
      (parseStarkHtmlReport (fun _ => none) "<not html>" "a.html").debug.warnings :=
  (claim_C3 (fun _ => none) "<not html>" "a.html").2 rfl

/-- The minimal synthetic issue-table document of C9: one table, header row
["Severity", "Description"], one data row
["Critical", "Images missing alt text"]. -/
def doc9 : Node :=
  .elem "html" [] [.elem "body" [] [
    .elem "table" [] [
      .elem "tr" [] [.elem "th" [] [.text "Severity"],
        .elem "th" [] [.text "Description"]],
      .elem "tr" [] [.elem "td" [] [.text "Critical"],
        .elem "td" [] [.text "Images missing alt text"]]]]]

/-- C9.  On the minimal synthetic table document, the parse returns exactly
one `ParsedIssue`, with severity Critical, description
"Images missing alt text", and occurrences 1.  (The description column key
also matches the `/(wcag|success criterion|sc)/` column pattern via its
"sc" substring, so the same cell is carried in the `wcag` field.) -/
theorem claim_C9 :
    (parseStarkHtmlReport (fun _ => some doc9) "<html>" "report.html").issues =
      [ParsedIssue.mk "Images missing alt text" "Images missing alt text"
        .critical (some "Critical") 1 (some "Images missing alt text") none
        none none "report.html"] := by
  decide

/-- The category-card document of C7: a card declaring "(5 instances)" for
an alt-text-related message, whose Instances list has three code snippets
of which exactly two look like image markup. -/
def doc7 : Node :=
  .elem "html" [] [.elem "body" [] [
    .elem "div"
      [("aria-label",
        "Violation. Images must have alternate text. (5 instances)")]
      [.elem "ul" [("aria-label", "Instances")] [
        .elem "li" [] [.elem "code" [] [.text "<img src=\"a.png\">"]],
        .elem "li" [] [.elem "code" [] [.text "<img src=\"b.png\">"]],
        .elem "li" [] [.elem "code" [] [.text "not markup"]]]]]]

/-- C7.  On the card declaring 5 instances with 2 usable image-markup
snippets, the Category-Card Extractor emits exactly 2 per-instance issues
with occurrences 1 carrying the snippets, plus 1 remainder issue with
occurrences 3 whose description notes that the missing instances are not
included in the HTML export. -/
theorem claim_C7 :
    parseCategoriesCardIssues doc7 "cards.html" none =
      [ParsedIssue.mk "Images must have alternate text."
        "Images must have alternate text." .critical none 1 none none none
        (some "<img src=\"a.png\">") "cards.html",
       ParsedIssue.mk "Images must have alternate text."
        "Images must have alternate text." .critical none 1 none none none
        (some "<img src=\"b.png\">") "cards.html",
       ParsedIssue.mk "Images must have alternate text."
        "Images must have alternate text. (Additional 3 instance(s) not included in the HTML export)"
        .critical none 3 none none none none "cards.html"] := by
  decide

/-- The WCAG-breakdown document of C8: a collapsed criterion section with a
"Failures" badge of 4 for criterion 1.1.1 and no issue cards. -/
def doc8 : Node :=
  .elem "html" [] [.elem "body" [] [
    .elem "ul" [] [
      .elem "li" [] [
        .elem "button" [] [.elem "div" [] [.text "1.1.1 Non-text Content"]],
        .elem "div" [] [
          .elem "svg" [("aria-label", "Failures")] [],
          .elem "div" [] [.text "4"]]]]]]

/-- C8.  On the document whose WCAG breakdown declares criterion 1.1.1
with 4 failures and no matching cards and no issue table, the parse
produces exactly one synthetic issue with severity Critical and
occurrences 4 whose description states that the count is taken from the
aggregate WCAG breakdown rather than detailed cards. -/
theorem claim_C8 :
    extractWcagBreakdownTotals doc8 =
      [WcagCriterionTotals.mk "1.1.1 Non-text Content" 4 0] ∧
    (parseStarkHtmlReport (fun _ => some doc8) "<html>" "report.html").issues =
      [ParsedIssue.mk
        "WCAG 1.1.1 Non-text Content — Violations (details not in export)"
        "Count taken from the WCAG breakdown in the Stark report. Detailed issue cards were not present in the HTML export (often because the section was collapsed)."
        .critical none 4 (some "1.1.1 Non-text Content") none none none
        "report.html"] := by
  constructor
  · decide
  · decide

/-- The doc9 issue is a member of the doc9 parse (evaluated while the
normalizer is still reducible). -/
lemma doc9_issue_mem :
    ParsedIssue.mk "Images missing alt text" "Images missing alt text"
        .critical (some "Critical") 1 (some "Images missing alt text") none
        none none "report.html" ∈
      (parseStarkHtmlReport (fun _ => some doc9) "<html>" "report.html").issues
    := by decide

/- The text-normalization pipeline duplicates its argument many times, so
definitional unfolding on symbolic input is exponential; all concrete
evaluations are above, and the remaining proofs are purely structural. -/
attribute [irreducible] normalizeText

lemma mem_dedupByKeyAux {mk : ParsedIssue → String} :
    ∀ {seen : List String} {l : List ParsedIssue} {i : ParsedIssue},
      i ∈ dedupByKeyAux mk seen l → i ∈ l := by
  intro seen l
  induction l generalizing seen with
  | nil => intro i h; simp [dedupByKeyAux] at h
  | cons j rest ih =>
    intro i h
    rw [dedupByKeyAux] at h
    by_cases hj : mk j ∈ seen
    · rw [if_pos hj] at h
      exact List.mem_cons_of_mem j (ih h)
    · rw [if_neg hj] at h
      rcases List.mem_cons.mp h with rfl | h
      · exact List.mem_cons_self _ _
      · exact List.mem_cons_of_mem j (ih h)

lemma parseHeuristicIssues_occ {root : Node} {sourceFile : String}
    {i : ParsedIssue} (h : i ∈ parseHeuristicIssues root sourceFile) :
    1 ≤ i.occurrences := by
  rw [parseHeuristicIssues] at h
  have h2 := mem_dedupByKeyAux h
  rw [List.mem_filterMap] at h2
  obtain ⟨el, _, hel⟩ := h2
  simp only [] at hel
  split at hel
  · cases hel
  · split at hel
    · cases hel
    · split at hel
      · cases hel
      · rw [Option.some.injEq] at hel
        subst hel
        exact Nat.le_refl 1

lemma rowIssue_occ {a b c d e f g : Option Nat} {sourceFile : String}
    {r : Loc} {i : ParsedIssue}
    (h : rowIssue a b c d e f g sourceFile r = some i) :
    1 ≤ i.occurrences := by
  rw [rowIssue] at h
  split at h
  · cases h
  · rw [Option.some.injEq] at h
    subst h
    exact parseOccurrences_pos _

lemma parseTableIssues_occ {t : Loc} {sourceFile : String} {i : ParsedIssue}
    (h : i ∈ parseTableIssues t sourceFile) : 1 ≤ i.occurrences := by
  rw [parseTableIssues] at h
  split at h
  · simp at h
  · split at h <;>
      · simp only [] at h
        split at h
        · simp at h
        · rw [List.mem_filterMap] at h
          obtain ⟨r, _, hr⟩ := h
          exact rowIssue_occ hr

lemma cardIssues_occ {el : Loc} {sourceFile : String} {pageUrl : Option String}
    {i : ParsedIssue} (h : i ∈ cardIssues el sourceFile pageUrl) :
    1 ≤ i.occurrences := by
  rw [cardIssues] at h
  split at h
  · simp at h
  · split at h
    · simp at h
    · simp only [] at h
      split at h <;>
      · split at h
        · simp at h
        · split at h
          · rw [List.mem_append] at h
            rcases h with h | h
            · rw [List.mem_map] at h
              obtain ⟨snip, _, hs⟩ := h
              rw [← hs]
            · split at h
              · rename_i hrem
                rcases List.mem_singleton.mp h with rfl
                exact hrem
              · simp at h
          · rcases List.mem_singleton.mp h with rfl
            dsimp only
            split
            · rename_i n hn
              by_cases hp : 0 < n
              · rw [if_pos hp]
                omega
              · rw [if_neg hp]
                exact parseOccurrences_pos _
            · exact parseOccurrences_pos _

lemma synthFor_occ {covered : List CoveredCounts} {pageUrl : Option String}
    {sourceFile : String} {c : WcagCriterionTotals} {i : ParsedIssue}
    (h : i ∈ synthFor covered pageUrl sourceFile c) : 1 ≤ i.occurrences := by
  rw [synthFor] at h
  rw [List.mem_append] at h
  rcases h with h | h
  · split at h
    · rename_i hmf
      rcases List.mem_singleton.mp h with rfl
      exact hmf
    · simp at h
  · split at h
    · rename_i hmp
      rcases List.mem_singleton.mp h with rfl
      exact hmp
    · simp at h

lemma chooseIssues_occ {root : Node} {sourceFile : String}
    {pageUrl : Option String} {wcagBreakdown : List WcagCriterionTotals}
    {tableIssues : List ParsedIssue} {i : ParsedIssue}
    (hti : ∀ j ∈ tableIssues, 1 ≤ j.occurrences)
    (h : i ∈ (chooseIssues root sourceFile pageUrl wcagBreakdown
      tableIssues).1) : 1 ≤ i.occurrences := by
  rw [chooseIssues] at h
  split at h
  · exact hti i h
  · simp only [] at h
    rw [apply_ite Prod.fst] at h
    dsimp only at h
    split at h
    · rw [List.mem_append] at h
      rcases h with h | h
      · rw [parseCategoriesCardIssues, List.mem_flatMap] at h
        obtain ⟨el, _, hel⟩ := h
        exact cardIssues_occ hel
      · rw [List.mem_flatMap] at h
        obtain ⟨c, _, hc⟩ := h
        exact synthFor_occ hc
    · exact parseHeuristicIssues_occ h

lemma parseStarkDoc_issues (root : Node) (sourceFile : String) :
    (parseStarkDoc root sourceFile).issues =
      (chooseIssues root sourceFile (extractPrimaryPageUrl root)
        (extractWcagBreakdownTotals root)
        ((qsaRoot root [[SSel.tags ["table"]]]).flatMap
          (fun t => parseTableIssues t sourceFile))).1 := rfl

/-- C5.  Every `ParsedIssue` produced by `parseStarkHtmlReport`, through
any extraction strategy (table rows, category cards with per-instance or
remainder issues, WCAG gap-fill synthetics, or the heuristic fallback),
has occurrences at least 1; absent or unparsable occurrence values default
to 1. -/
theorem claim_C5 (domParse : String → Option Node) (html sourceFile : String)
    (i : ParsedIssue)
    (hi : i ∈ (parseStarkHtmlReport domParse html sourceFile).issues) :
    1 ≤ i.occurrences := by
  rw [parseStarkHtmlReport] at hi
  rcases hdp : domParse html with _ | root
  · rw [hdp] at hi
    simp at hi
  · rw [hdp] at hi
    dsimp only at hi
    rw [parseStarkDoc_issues] at hi
    refine chooseIssues_occ ?_ hi
    intro j hj
    rw [List.mem_flatMap] at hj
    obtain ⟨t, _, hjt⟩ := hj
    exact parseTableIssues_occ hjt

/-- Concrete instantiation of C5 at the doc9 parse. -/
theorem claim_C5_witness :
    1 ≤ (ParsedIssue.mk "Images missing alt text" "Images missing alt text"
      .critical (some "Critical") 1 (some "Images missing alt text") none
      none none "report.html").occurrences :=
  claim_C5 (fun _ => some doc9) "<html>" "report.html" _ doc9_issue_mem
